import Mathlib

/-!
# Verification of the lunch-label-formatter layout/pagination engine

Shallow embedding of the repository's core logic:
* `src/utils.js` (`calculateFontSizes`) — font-size tier selection,
* `src/templates.js` — the template registry (`getTemplateByName`, `isValidTemplateName`),
* `src/labelGenerator.js` — input validation (`validateInput`), the pagination loop of
  `createLunchLabels`, and the text-fitting parts of `drawLunchLabel`
  (student-name truncation, contents word-wrap),
* `src/dataHandler.js` — `convertToCSV` / `parseCSV`.

Conventions of the embedding:
* JS numbers are modelled by `ℚ` (all constants in the code are exact decimals,
  and the arithmetic performed on them — sums and products of such decimals —
  is exact in IEEE doubles as used here only up to rounding; we verify the
  intended real-number semantics in `ℚ`); label counts, which the data model
  declares to be positive integers, are modelled by `ℕ`.
* JS strings are modelled by `String`, with character-level algorithms
  (trim, split, escaping) on `List Char`.
* Functions that `throw` are modelled with `Except String` / `Option String`.
* The external pdf-lib text-measurement function `widthOfTextAtSize` is an
  opaque collaborator; algorithms that consult it are parametrised by a width
  measure `μ : List Char → ℚ` (the width of a string at the already-fixed
  role size).
-/

/- Batteries marks the `Rat` arithmetic operations `@[irreducible]`, which
blocks `decide`/`rfl` evaluation of the embedded functions on concrete
rationals.  All values in this development are small exact decimals, so in
the sections that evaluate the embedding on concrete inputs we locally
restore reducibility. -/
set_option allowUnsafeReducibility true

namespace LunchLabels

/-- `Except` success test (used instead of `Except.isOk` so that proofs can
unfold it by `cases`). -/
def isOkE {ε α : Type} : Except ε α → Bool
  | .ok _ => true
  | .error _ => false

instance exceptDecEq {ε α : Type} [DecidableEq ε] [DecidableEq α] :
    DecidableEq (Except ε α)
  | .error a, .error b =>
    if h : a = b then .isTrue (congrArg _ h)
    else .isFalse (fun he => h (Except.error.inj he))
  | .error _, .ok _ => .isFalse Except.noConfusion
  | .ok _, .error _ => .isFalse Except.noConfusion
  | .ok a, .ok b =>
    if h : a = b then .isTrue (congrArg _ h)
    else .isFalse (fun he => h (Except.ok.inj he))

/-! ## Data model -/

/-- A layout profile (the `template` objects of the repository): physical label
dimensions, grid counts, margins and gaps, all in inches except the counts.
Mirrors the fields consumed by `labelGenerator.js` and stored in
`templates.js`. -/
structure Template where
  labelWidth : ℚ
  labelHeight : ℚ
  labelsPerRow : ℕ
  labelsPerColumn : ℕ
  marginTop : ℚ
  marginLeft : ℚ
  horizontalGap : ℚ
  verticalGap : ℚ
deriving DecidableEq, Repr

/-- A lunch-order record with the four required fields and the optional
`specialInstructions` (empty string when absent, matching the interactive
collector's convention). -/
structure Order where
  orderId : String
  studentName : String
  grade : String
  contents : String
  specialInstructions : String
deriving DecidableEq, Repr

/-- A record's resolved grid placement (the spec's GridCell): 0-based page,
row and column indices plus the point-space coordinates computed by
`createLunchLabels`. -/
structure Cell where
  page : ℕ
  row : ℕ
  col : ℕ
  x : ℚ
  y : ℚ
deriving DecidableEq, Repr

/-- The per-role font sizes returned by `calculateFontSizes` (the spec's
FontPlan). -/
structure FontPlan where
  orderId : ℕ
  studentName : ℕ
  grade : ℕ
  contents : ℕ
  specialInstructions : ℕ
deriving DecidableEq, Repr

/-- `PAGE_WIDTH = 8.5 * 72` points (labelGenerator.js line 76). -/
def PAGE_WIDTH : ℚ := 612

/-- `PAGE_HEIGHT = 11 * 72` points (labelGenerator.js line 77). -/
def PAGE_HEIGHT : ℚ := 792

/-! ## Font sizing (`src/utils.js`, `calculateFontSizes`) -/

/-- The three size tiers of `calculateFontSizes`. -/
inductive SizeCategory | small | medium | large
deriving DecidableEq, Repr

/-- The fixed per-tier FontPlans from `calculateFontSizes` (utils.js
lines 9-34). -/
def fontSizesTable : SizeCategory → FontPlan
  | .small => ⟨6, 7, 6, 6, 5⟩
  | .medium => ⟨7, 9, 7, 7, 6⟩
  | .large => ⟨8, 12, 8, 8, 7⟩

/-- Tier classification of `calculateFontSizes` (utils.js lines 36-42):
default `medium`; `small` if `labelWidth < 2 || labelHeight < 0.75`;
else `large` if `labelWidth > 3.5 || labelHeight > 2`. -/
def sizeCategory (t : Template) : SizeCategory :=
  if t.labelWidth < 2 ∨ t.labelHeight < 0.75 then .small
  else if t.labelWidth > 3.5 ∨ t.labelHeight > 2 then .large
  else .medium

/-- `calculateFontSizes` (utils.js lines 4-45). -/
def calculateFontSizes (t : Template) : FontPlan :=
  fontSizesTable (sizeCategory t)

/-! ## Template registry (`src/templates.js`) -/

/-- Registry entry `5160` (templates.js). -/
def t5160 : Template :=
  { labelWidth := 2.625, labelHeight := 1.0, labelsPerRow := 3, labelsPerColumn := 10
    marginTop := 0.5, marginLeft := 0.1875, horizontalGap := 0.125, verticalGap := 0.0 }

/-- Registry entry `8160` (same geometry as `5160`). -/
def t8160 : Template := t5160

/-- Registry entry `5162`. -/
def t5162 : Template :=
  { labelWidth := 4.0, labelHeight := 1.333, labelsPerRow := 2, labelsPerColumn := 7
    marginTop := 0.5, marginLeft := 0.25, horizontalGap := 0.25, verticalGap := 0.125 }

/-- Registry entry `5163` (and `8163`). -/
def t5163 : Template :=
  { labelWidth := 4.0, labelHeight := 2.0, labelsPerRow := 2, labelsPerColumn := 5
    marginTop := 0.25, marginLeft := 0.25, horizontalGap := 0.25, verticalGap := 0.125 }

/-- Registry entry `5164` (and `8164`) as defined in templates.js. -/
def t5164 : Template :=
  { labelWidth := 3.5, labelHeight := 3.0, labelsPerRow := 2, labelsPerColumn := 3
    marginTop := 0.5, marginLeft := 0.5, horizontalGap := 0.25, verticalGap := 0.25 }

/-- Registry entry `5167`. -/
def t5167 : Template :=
  { labelWidth := 1.75, labelHeight := 0.5, labelsPerRow := 4, labelsPerColumn := 20
    marginTop := 0.25, marginLeft := 0.125, horizontalGap := 0.125, verticalGap := 0.0625 }

/-- The registry object of templates.js (lines 5-107), in insertion order.
The `name` key of each entry is the association key; the human-readable
`description` strings are display-only and not modelled. -/
def templatesList : List (String × Template) :=
  [("5160", t5160), ("8160", t8160), ("5162", t5162), ("5163", t5163),
   ("8163", t5163), ("5164", t5164), ("8164", t5164), ("5167", t5167)]

/-- `getTemplateNames()` = `Object.keys(templates)` (templates.js line 122). -/
def templateNames : List String := templatesList.map (·.1)

/-- `getTemplateByName` (templates.js lines 110-115): throws on a name with no
registry entry, otherwise returns the entry. -/
def getTemplateByName (name : String) : Except String Template :=
  match templatesList.find? (fun p => p.1 == name) with
  | some p => .ok p.2
  | none => .error ("Unknown template: " ++ name)

/-- `isValidTemplateName` (templates.js lines 125-127):
`Object.keys(templates).includes(name) || name === 'custom'`. -/
def isValidTemplateName (name : String) : Bool :=
  templateNames.contains name || name == "custom"

/-! ## Character-level string utilities (JS semantics) -/

/-- The whitespace characters relevant to JS `String.trim` for this code base
(space, tab, newline, carriage return). -/
def isWS (c : Char) : Bool :=
  c = ' ' || c = '\t' || c = '\n' || c = '\r'

/-- JS `String.trim` on a character list: strip leading and trailing
whitespace. -/
def trimCh (l : List Char) : List Char :=
  ((l.dropWhile isWS).reverse.dropWhile isWS).reverse

/-- JS `String.trim`. -/
def trimStr (s : String) : String := ⟨trimCh s.data⟩

/-- JS `String.split` with a single-character separator: `splitCh c l` never
returns `[]`; splitting the empty string yields `[[]]`, and separators at the
ends produce empty pieces, exactly as in JS. -/
def splitCh (c : Char) : List Char → List (List Char)
  | [] => [[]]
  | x :: xs =>
    if x = c then [] :: splitCh c xs
    else
      match splitCh c xs with
      | [] => [[x]]
      | y :: ys => (x :: y) :: ys

/-- JS `Array.join` with a single-character separator. -/
def joinCh (c : Char) : List (List Char) → List Char
  | [] => []
  | [l] => l
  | l :: ls => l ++ c :: joinCh c ls

/-! ## Input validation (`labelGenerator.js`, `validateInput`) -/

/-- `validateInput.isValidTemplate` (labelGenerator.js lines 19-41).
The `typeof template[field] !== 'number'` part of the check is vacuous in the
typed embedding; the numeric comparisons are mirrored exactly: every one of
the six required fields must be `> 0`, label dimensions at most 10 inches,
at most 10 labels per row and 20 per column.  Gaps are not checked. -/
def isValidTemplate (t : Template) : Except String Unit :=
  let missing : List String :=
    (if t.labelWidth ≤ 0 then ["labelWidth"] else []) ++
    (if t.labelHeight ≤ 0 then ["labelHeight"] else []) ++
    (if t.labelsPerRow ≤ 0 then ["labelsPerRow"] else []) ++
    (if t.labelsPerColumn ≤ 0 then ["labelsPerColumn"] else []) ++
    (if t.marginTop ≤ 0 then ["marginTop"] else []) ++
    (if t.marginLeft ≤ 0 then ["marginLeft"] else [])
  if missing ≠ [] then
    .error ("Template missing required fields: " ++ String.intercalate ", " missing)
  else if t.labelWidth > 10 ∨ t.labelHeight > 10 then
    .error "Label dimensions too large (max 10 inches)"
  else if t.labelsPerRow > 10 ∨ t.labelsPerColumn > 20 then
    .error "Too many labels per page"
  else .ok ()

/-- `validateInput.isValidLunchOrder` (labelGenerator.js lines 43-56): the four
required fields must be non-empty and not whitespace-only
(`!order[field] || order[field].trim() === ''` collapses to
`trim(field) = ""` for strings). -/
def isValidLunchOrder (o : Order) : Except String Unit :=
  let missing : List String :=
    (if trimStr o.orderId = "" then ["orderId"] else []) ++
    (if trimStr o.studentName = "" then ["studentName"] else []) ++
    (if trimStr o.grade = "" then ["grade"] else []) ++
    (if trimStr o.contents = "" then ["contents"] else [])
  if missing ≠ [] then
    .error ("Order missing required fields: " ++ String.intercalate ", " missing)
  else .ok ()

/-- `validateInput.isValidOutputPath` (labelGenerator.js lines 58-72):
non-empty string without a NUL byte. -/
def isValidOutputPath (p : String) : Except String Unit :=
  if p = "" then .error "Output path must be a valid string"
  else if p.data.contains (Char.ofNat 0) then
    .error "Output path contains invalid characters"
  else .ok ()

/-! ## Pagination (`createLunchLabels` main loop, labelGenerator.js 118-159) -/

/-- `labelsPerRow * labelsPerColumn`, the per-page capacity used by the
new-page test on line 119. -/
def capacity (t : Template) : ℕ := t.labelsPerRow * t.labelsPerColumn

/-- Side effects of `createLunchLabels` on the in-memory document and the
file system, in the order they are performed. -/
inductive Effect
  | addPage
  | drawLabel (o : Order)
  | writeFile
deriving DecidableEq, Repr

/-- One iteration's cell computation (labelGenerator.js lines 126-138):
`row`/`col` from `labelsOnCurrentPage`, coordinates in points. -/
def cellOf (t : Template) (pageCount labelsOnCurrentPage : ℕ) : Cell :=
  let row := labelsOnCurrentPage / t.labelsPerRow
  let col := labelsOnCurrentPage % t.labelsPerRow
  let labelWidthPoints := t.labelWidth * 72
  let labelHeightPoints := t.labelHeight * 72
  let marginLeftPoints := t.marginLeft * 72
  let marginTopPoints := t.marginTop * 72
  let horizontalGapPoints := t.horizontalGap * 72
  let verticalGapPoints := t.verticalGap * 72
  { page := pageCount - 1, row := row, col := col
    x := marginLeftPoints + col * (labelWidthPoints + horizontalGapPoints)
    y := PAGE_HEIGHT - (marginTopPoints + row * (labelHeightPoints + verticalGapPoints))
           - labelHeightPoints }

/-- The per-record bound checks of labelGenerator.js lines 141-152, returning
the first violated check's error (1-based record index in the message). -/
def checkCell (t : Template) (labelIndex : ℕ) (c : Cell) : Except String Unit :=
  if c.x < 0 then
    .error ("Label " ++ toString (labelIndex + 1) ++ " would be positioned too far left")
  else if c.y < 0 then
    .error ("Label " ++ toString (labelIndex + 1) ++ " would be positioned too far down")
  else if c.x + t.labelWidth * 72 > PAGE_WIDTH then
    .error ("Label " ++ toString (labelIndex + 1) ++ " would extend beyond right edge")
  else if c.y + t.labelHeight * 72 > PAGE_HEIGHT then
    .error ("Label " ++ toString (labelIndex + 1) ++ " would extend beyond top edge")
  else .ok ()

/-- The `for (const order of lunchOrders)` loop of `createLunchLabels`
(labelGenerator.js lines 118-159), carrying the three loop variables
`labelIndex`, `labelsOnCurrentPage`, `pageCount`.  Returns the document
effects performed so far together with either the computed
(order, GridCell) stream or the first error. -/
def pagLoop (t : Template) :
    List Order → ℕ → ℕ → ℕ → List Effect × Except String (List (Order × Cell))
  | [], _, _, _ => ([], .ok [])
  | o :: os, labelIndex, locpIn, pcIn =>
    let labelsOnCurrentPage := if labelIndex % capacity t = 0 then 0 else locpIn
    let pageCount := if labelIndex % capacity t = 0 then pcIn + 1 else pcIn
    let pageEffects : List Effect := if labelIndex % capacity t = 0 then [.addPage] else []
    let c := cellOf t pageCount labelsOnCurrentPage
    match checkCell t labelIndex c with
    | .error e => (pageEffects, .error e)
    | .ok _ =>
      let r := pagLoop t os (labelIndex + 1) (labelsOnCurrentPage + 1) pageCount
      (pageEffects ++ .drawLabel o :: r.1,
       match r.2 with
       | .error e => .error e
       | .ok cs => .ok ((o, c) :: cs))

/-- The paginator: the (order, GridCell) stream computed by
`createLunchLabels`, starting from `labelIndex = 0`,
`labelsOnCurrentPage = 0`, `pageCount = 0`. -/
def paginate (orders : List Order) (t : Template) : Except String (List (Order × Cell)) :=
  (pagLoop t orders 0 0 0).2

/-- `createLunchLabels` (labelGenerator.js lines 79-186) as an effect trace:
input validation in source order (empty-input check, template, output path,
per-order validation with 1-based indices), then the pagination/drawing loop,
then — only on full success — the single `fs.writeFile` of the saved
document.  The returned `Option String` is the thrown error, if any. -/
def generate (orders : List Order) (t : Template) (outputPath : String) :
    List Effect × Option String :=
  if orders.isEmpty then ([], some "Lunch orders array cannot be empty")
  else
    match isValidTemplate t with
    | .error e => ([], some e)
    | .ok _ =>
      match isValidOutputPath outputPath with
      | .error e => ([], some e)
      | .ok _ =>
        match validateOrders orders 0 with
        | .error e => ([], some e)
        | .ok _ =>
          match pagLoop t orders 0 0 0 with
          | (effs, .error e) => (effs, some e)
          | (effs, .ok _) => (effs ++ [.writeFile], none)
where
  /-- The order-validation loop of lines 99-105: first failure wins, tagged
  with the order's 1-based position. -/
  validateOrders : List Order → ℕ → Except String Unit
    | [], _ => .ok ()
    | o :: os, i =>
      match isValidLunchOrder o with
      | .error e => .error ("Order " ++ toString (i + 1) ++ ": " ++ e)
      | .ok _ => validateOrders os (i + 1)

/-- Closed form of the loop state: the GridCell assigned to global index `i`
(page `i / capacity`, index-on-page `i % capacity`). -/
def cellFor (t : Template) (i : ℕ) : Cell :=
  cellOf t (i / capacity t + 1) (i % capacity t)

/-- Closed form of the (order, GridCell) stream produced by the loop from
global index `n` on. -/
def cellsFrom (t : Template) : ℕ → List Order → List (Order × Cell)
  | _, [] => []
  | n, o :: os => (o, cellFor t n) :: cellsFrom t (n + 1) os

/-! ## Text fitting (`drawLunchLabel`, labelGenerator.js 188-371)

The pdf-lib text-measurement functions (`font.widthOfTextAtSize`,
`boldFont.widthOfTextAtSize`) are external collaborators; the algorithms
below are parametrised by a width measure `μ : List Char → ℚ` standing for
`widthOfTextAtSize · s` at the already-selected role size `s`. -/

/-- The three-character ellipsis appended by the name-truncation loop. -/
def ellipsis : List Char := ['.', '.', '.']

/-- The dynamic padding of `drawLunchLabel` (lines 194-204): 0.05 in for the
small tier, 0.2 in for large, 0.12 in for medium, converted to points. -/
def paddingOf (t : Template) : ℚ :=
  if t.labelWidth < 2 ∨ t.labelHeight < 0.75 then 0.05 * 72
  else if t.labelWidth > 3.5 ∨ t.labelHeight > 2 then 0.2 * 72
  else 0.12 * 72

/-- `maxWidth = labelWidth - padding * 2` in points (line 233). -/
def maxWidthOf (t : Template) : ℚ := t.labelWidth * 72 - 2 * paddingOf t

/-- The `while` loop of lines 269-271, processed from the reversed character
list so that recursion is structural: repeatedly remove the LAST character
while the text with `"..."` appended is still wider than `maxW` and the text
is non-empty.  The argument and result are in reversed order. -/
def truncateAux (μ : List Char → ℚ) (maxW : ℚ) : List Char → List Char
  | [] => []
  | c :: rest =>
    if maxW < μ ((c :: rest).reverse ++ ellipsis) then truncateAux μ maxW rest
    else c :: rest

/-- The truncation loop on the name in document order (lines 268-271). -/
def truncateLoop (μ : List Char → ℚ) (maxW : ℚ) (t : List Char) : List Char :=
  (truncateAux μ maxW t.reverse).reverse

/-- The student-name drawing policy of `drawLunchLabel` (lines 253-284):
if the name fits it is drawn verbatim with no warning; otherwise the
truncation loop runs, the truncated name + `"..."` is drawn when the loop
left a non-empty prefix, the field is omitted when it reached the empty
string, and a warning is logged in either of those two cases.  The result is
(drawn text, warning flag). -/
def drawStudentName (μ : List Char → ℚ) (maxW : ℚ) (name : List Char) :
    Option (List Char) × Bool :=
  if μ name ≤ maxW then (some name, false)
  else
    let truncatedName := truncateLoop μ maxW name
    if truncatedName ≠ [] then (some (truncatedName ++ ellipsis), true)
    else (none, true)

/-- Per-character width: the Helvetica advance widths (in units of 1/1000 em)
of the full stop and a representative lowercase letter.  Used to build a
concrete instance of the abstract width measure. -/
def charW (c : Char) : ℚ := if c = '.' then 278 / 1000 else 556 / 1000

/-- A concrete additive width measure: `size * sum of per-character
widths`, standing in for pdf-lib's `widthOfTextAtSize · size`. -/
def helveticaWidth (size : ℚ) (s : List Char) : ℚ :=
  size * (s.map charW).sum

/-! ## Contents word wrap (`drawLunchLabel`, lines 304-349) -/

/-- `maxLines = 3` (line 310). -/
def maxLines : ℕ := 3

/-- The `for (const word of words)` loop of lines 312-332, carrying
`currentLine` and `linesDrawn` and returning (lines drawn inside the loop,
final `linesDrawn`, final `currentLine`). -/
def wrapLoop (μ : List Char → ℚ) (maxW : ℚ) :
    List (List Char) → List Char → ℕ → List (List Char) × ℕ × List Char
  | [], currentLine, linesDrawn => ([], linesDrawn, currentLine)
  | w :: ws, currentLine, linesDrawn =>
    let testLine := if currentLine ≠ [] then currentLine ++ ' ' :: w else w
    if μ testLine ≤ maxW ∧ linesDrawn < maxLines then
      wrapLoop μ maxW ws testLine linesDrawn
    else
      if currentLine ≠ [] ∧ linesDrawn < maxLines then
        let r := wrapLoop μ maxW ws w (linesDrawn + 1)
        (currentLine :: r.1, r.2)
      else
        wrapLoop μ maxW ws w linesDrawn

/-- The contents rendering of lines 304-349: the wrap loop over the words of
the body text, the final `if (currentLine && linesDrawn < maxLines)` draw
(which does NOT increment `linesDrawn`), and the warning condition
`linesDrawn >= maxLines && words.length > 0`.  Returns (all drawn lines,
final in-loop `linesDrawn`, warning flag). -/
def wrapContents (μ : List Char → ℚ) (maxW : ℚ) (words : List (List Char)) :
    List (List Char) × ℕ × Bool :=
  let r := wrapLoop μ maxW words [] 0
  let lines := if r.2.2 ≠ [] ∧ r.2.1 < maxLines then r.1 ++ [r.2.2] else r.1
  (lines, r.2.1, decide (maxLines ≤ r.2.1) && !words.isEmpty)

/-! ## Concrete fixtures used by counterexamples and witnesses -/

/-- A minimal valid lunch order. -/
def o1 : Order := ⟨"1", "A", "K", "x", ""⟩

/-- Three copies of `o1`, the 3-record input of the positioning scenario. -/
def threeOrders : List Order := [o1, o1, o1]

/-- The `5164` entry of index.js's local `getTemplateByName`
(labelWidth 4.0, labelHeight 3.333), used by the tier-boundary scenario. -/
def t5164Index : Template :=
  { labelWidth := 4.0, labelHeight := 3.333, labelsPerRow := 2, labelsPerColumn := 3
    marginTop := 0.5, marginLeft := 0.5, horizontalGap := 0.25, verticalGap := 0.25 }

/-- A profile that overflows the 612-point page width when all three columns
are used (`0.5 + 3*3 + 2*0.125 = 9.75` inches = 702 points), yet satisfies
every check of `validateInput.isValidTemplate`. -/
def overflowT : Template :=
  { labelWidth := 3, labelHeight := 1, labelsPerRow := 3, labelsPerColumn := 10
    marginTop := 0.5, marginLeft := 0.5, horizontalGap := 0.125, verticalGap := 0 }

/-- A template with `marginTop = 0`, otherwise the 5160 geometry. -/
def zeroMarginT : Template :=
  { labelWidth := 2.625, labelHeight := 1.0, labelsPerRow := 3, labelsPerColumn := 10
    marginTop := 0, marginLeft := 0.1875, horizontalGap := 0.125, verticalGap := 0.0 }

/-- A valid but very narrow (0.2 in) small-tier template: its available text
width is `0.2*72 - 2*3.6 = 7.2` points. -/
def narrowT : Template :=
  { labelWidth := 0.2, labelHeight := 0.5, labelsPerRow := 4, labelsPerColumn := 20
    marginTop := 0.25, marginLeft := 0.125, horizontalGap := 0.125, verticalGap := 0.0625 }

/-! ## CSV serialisation and parsing (`part_000`: `convertToCSV` lines
296-345, `parseCSV` lines 235-294) -/

/-- The required CSV headers of `parseCSV` (line 251) and the required-field
list reused by the row check (line 278). -/
def requiredHeaders : List String := ["orderId", "studentName", "grade", "contents"]

/-- The key set of a lunch-order record in insertion order — what
`Object.keys(firstObject)` yields in `convertToCSV` for records of this
application. -/
def csvHeaders : List String :=
  ["orderId", "studentName", "grade", "contents", "specialInstructions"]

/-- The five field values of an order, in `csvHeaders` order
(`headers.map(header => row[header] || ...)` of lines 329-330). -/
def orderFields (o : Order) : List (List Char) :=
  [o.orderId.data, o.studentName.data, o.grade.data, o.contents.data,
   o.specialInstructions.data]

/-- `value.replace` doubling every double-quote character (line 334). -/
def doubleQuotes : List Char → List Char
  | [] => []
  | c :: cs => if c = '"' then '"' :: '"' :: doubleQuotes cs else c :: doubleQuotes cs

/-- The per-value escaping of `convertToCSV` (lines 332-336): a value
containing a comma, double quote, newline or carriage return has its quotes
doubled and is wrapped in double quotes; any other value passes unchanged. -/
def escapeValue (l : List Char) : List Char :=
  if l.contains ',' || l.contains '"' || l.contains '\n' || l.contains '\r' then
    '"' :: (doubleQuotes l ++ ['"'])
  else l

/-- One CSV data line of `convertToCSV` (lines 328-338): the escaped field
values joined by commas, in header order. -/
def csvLineOf (o : Order) : List Char :=
  joinCh ',' ((orderFields o).map escapeValue)

/-- The header line `headers.join(',')` (line 326). -/
def csvHeaderLine : List Char := joinCh ',' (csvHeaders.map String.data)

/-- `convertToCSV` (lines 296-345) specialised to lunch-order records: the
homogeneity checks of lines 302-324 always pass for same-typed records, so
the function fails only on empty input and otherwise joins the header line
and one escaped line per record with newlines. -/
def convertToCSV (data : List Order) : Except String (List Char) :=
  if data.isEmpty then
    .error "CSV conversion error: Data must be a non-empty array"
  else
    .ok (joinCh '\n' (csvHeaderLine :: data.map csvLineOf))

/-- The value `row[header]` holds after the assignments
`headers.forEach((header, index) => row[header] = values[index])` of lines
273-275: the value at the LAST occurrence of the header (later assignments
overwrite earlier ones), and the empty string when the key is absent. -/
def rowGet (headers values : List (List Char)) (k : List Char) : List Char :=
  match ((headers.zip values).reverse).find? (fun p => p.1 == k) with
  | some p => p.2
  | none => []

/-- The record a parsed CSV row denotes, read through the five property
names the rest of the program uses (absent keys read as empty). -/
def orderOfRow (headers values : List (List Char)) : Order :=
  { orderId := ⟨rowGet headers values "orderId".data⟩
    studentName := ⟨rowGet headers values "studentName".data⟩
    grade := ⟨rowGet headers values "grade".data⟩
    contents := ⟨rowGet headers values "contents".data⟩
    specialInstructions := ⟨rowGet headers values "specialInstructions".data⟩ }

/-- The data-row loop of `parseCSV` (lines 260-284): trim the raw line, skip
it when empty, split on commas and trim each value, reject a column-count
mismatch, reject empty required fields, and otherwise accumulate the row
record.  `i` is the JS index into `lines` (starting at 1); the error
messages use the 1-based row number `i + 1`. -/
def parseRows (headers : List (List Char)) :
    List (List Char) → ℕ → Except String (List Order)
  | [], _ => .ok []
  | l :: ls, i =>
    if trimCh l = [] then parseRows headers ls (i + 1)
    else if ((splitCh ',' (trimCh l)).map trimCh).length ≠ headers.length then
      .error ("Row " ++ toString (i + 1) ++ ": Column count mismatch. Expected " ++
        toString headers.length ++ ", got " ++
        toString ((splitCh ',' (trimCh l)).map trimCh).length)
    else if requiredHeaders.filter
        (fun h => rowGet headers ((splitCh ',' (trimCh l)).map trimCh) h.data == []) ≠ [] then
      .error ("Row " ++ toString (i + 1) ++ ": Missing required fields: " ++
        String.intercalate ", "
          (requiredHeaders.filter
            (fun h =>
              rowGet headers ((splitCh ',' (trimCh l)).map trimCh) h.data == [])))
    else
      match parseRows headers ls (i + 1) with
      | .error e => .error e
      | .ok rest => .ok (orderOfRow headers ((splitCh ',' (trimCh l)).map trimCh) :: rest)

/-- The body of `parseCSV` (lines 235-290): trim the content, split into
lines, require a header row plus at least one further line, read and trim
the headers, require the four mandatory headers (the `headers.length === 0`
check of line 247 is unreachable since `split` never returns an empty
array), run the row loop, and reject an all-empty body. -/
def parseCSVCore (content : List Char) : Except String (List Order) :=
  match splitCh '\n' (trimCh content) with
  | l0 :: r1 :: rest =>
    if requiredHeaders.filter
        (fun h => !(((splitCh ',' l0).map trimCh).contains h.data)) ≠ [] then
      .error ("Missing required headers: " ++ String.intercalate ", "
        (requiredHeaders.filter
          (fun h => !(((splitCh ',' l0).map trimCh).contains h.data))))
    else
      match parseRows ((splitCh ',' l0).map trimCh) (r1 :: rest) 1 with
      | .error e => .error e
      | .ok data =>
        if data.isEmpty then .error "No valid data rows found in CSV file"
        else .ok data
  | _ => .error "CSV file must have at least a header row and one data row"

/-- `parseCSV` (lines 235-294): the body with every error wrapped in the
catch-all prefix of line 292. -/
def parseCSV (content : List Char) : Except String (List Order) :=
  match parseCSVCore content with
  | .error e => .error ("CSV parsing error: " ++ e)
  | .ok d => .ok d

/-- The round trip of P6: serialise then re-parse. -/
def csvRoundTrip (data : List Order) : Except String (List Order) :=
  match convertToCSV data with
  | .error e => .error e
  | .ok content => parseCSV content

/-- A record is clean when every field is free of commas, double quotes,
newlines and carriage returns and is fixed under trimming, and the four
required fields are non-empty. -/
def CleanOrder (o : Order) : Prop :=
  (∀ f ∈ orderFields o, (',' ∉ f ∧ '"' ∉ f ∧ '\n' ∉ f ∧ '\r' ∉ f) ∧ trimCh f = f) ∧
  o.orderId.data ≠ [] ∧ o.studentName.data ≠ [] ∧ o.grade.data ≠ [] ∧
  o.contents.data ≠ []

instance (o : Order) : Decidable (CleanOrder o) :=
  decidable_of_iff
    ((∀ f ∈ orderFields o, (',' ∉ f ∧ '"' ∉ f ∧ '\n' ∉ f ∧ '\r' ∉ f) ∧ trimCh f = f) ∧
      o.orderId.data ≠ [] ∧ o.studentName.data ≠ [] ∧ o.grade.data ≠ [] ∧
      o.contents.data ≠ []) Iff.rfl

section ConcreteEvalA

attribute [local semireducible] Rat.ofScientific Rat.mul Rat.inv Rat.add Rat.sub

/-! ## C4 — tier classification -/

/-- C4: tier classification is a pure function of `labelWidth` and
`labelHeight` alone: `small` when `labelWidth < 2 ∨ labelHeight < 0.75`,
otherwise `large` when `labelWidth > 3.5 ∨ labelHeight > 2`, otherwise
`medium`; the three scenario profiles classify as medium, small and large
respectively; and the resulting FontPlan is determined by the two dimensions
(hence identical across repeated calls). -/
theorem c4_tier_classification :
    (∀ t : Template,
      ((t.labelWidth < 2 ∨ t.labelHeight < 0.75) → sizeCategory t = .small) ∧
      (¬(t.labelWidth < 2 ∨ t.labelHeight < 0.75) →
        (t.labelWidth > 3.5 ∨ t.labelHeight > 2) → sizeCategory t = .large) ∧
      (¬(t.labelWidth < 2 ∨ t.labelHeight < 0.75) →
        ¬(t.labelWidth > 3.5 ∨ t.labelHeight > 2) → sizeCategory t = .medium)) ∧
    (∀ t₁ t₂ : Template, t₁.labelWidth = t₂.labelWidth → t₁.labelHeight = t₂.labelHeight →
      calculateFontSizes t₁ = calculateFontSizes t₂) ∧
    sizeCategory t5160 = .medium ∧ sizeCategory t5167 = .small ∧
    sizeCategory t5164Index = .large := by
  refine ⟨fun t => ⟨fun h => ?_, fun h h' => ?_, fun h h' => ?_⟩, fun t₁ t₂ h1 h2 => ?_,
    by decide, by decide, by decide⟩
  · simp only [sizeCategory, if_pos h]
  · simp only [sizeCategory, if_neg h, if_pos h']
  · simp only [sizeCategory, if_neg h, if_neg h']
  · simp only [calculateFontSizes, sizeCategory, h1, h2]

/-- Witness for `c4_tier_classification` at concrete inputs. -/
theorem c4_tier_classification_witness :
    sizeCategory t5167 = SizeCategory.small ∧
    calculateFontSizes t5160 = calculateFontSizes t8160 :=
  ⟨(c4_tier_classification.1 t5167).1 (by decide),
   c4_tier_classification.2.1 t5160 t8160 (by decide) (by decide)⟩

/-! ## C2 — concrete positioning scenario on the 5160 profile -/

/-- C2 counterexample: with the 5160 profile the code computes
`x = marginLeft + col*(labelWidth + horizontalGap)` in points, which gives
`13.5, 211.5, 409.5` for columns 0, 1, 2 — not the claimed `13.5, 202.5,
391.5` (those omit the 0.125-inch horizontal gap). -/
theorem c2_counterexample :
    (paginate threeOrders t5160).toOption.map (fun l => l.map fun p => p.2.x) =
      some [27/2, 423/2, 819/2] ∧
    ¬((423 : ℚ)/2 = 202.5) ∧ ¬((819 : ℚ)/2 = 391.5) := by
  refine ⟨by decide, by norm_num, by norm_num⟩

/-- C2 amended: the 3-record input on the 5160 profile yields exactly one
page with cells (0,0), (0,1), (0,2), x coordinates `13.5, 211.5, 409.5`
points (per `x = marginLeft + column*(labelWidth + horizontalGap)`), and all
y coordinates `792 - 36 - 72 = 684` points. -/
theorem c2_amended :
    paginate threeOrders t5160 =
      .ok [(o1, ⟨0, 0, 0, 27/2, 684⟩), (o1, ⟨0, 0, 1, 423/2, 684⟩),
           (o1, ⟨0, 0, 2, 819/2, 684⟩)] ∧
    (27/2 : ℚ) = 13.5 ∧ (423/2 : ℚ) = 211.5 ∧ (819/2 : ℚ) = 409.5 ∧
    (684 : ℚ) = 792 - 36 - 72 := by
  refine ⟨by decide, by norm_num, by norm_num, by norm_num, by norm_num⟩

/-! ## C3 — geometric overflow is NOT caught by validation -/

/-- C3 counterexample: `overflowT` needs `702 > 612` points of width, yet
`validateInput.isValidTemplate` accepts it, and a 1-record generation run
completes and writes the output — the profile is never rejected, let alone
before GridCell computation. -/
theorem c3_counterexample :
    72 * (overflowT.marginLeft + 3 * overflowT.labelWidth + 2 * overflowT.horizontalGap)
        > 612 ∧
    isOkE (isValidTemplate overflowT) = true ∧
    generate [o1] overflowT "out.pdf" =
      ([.addPage, .drawLabel o1, .writeFile], none) := by
  refine ⟨by norm_num [overflowT], by decide, by decide⟩

/-- C3 amended: `isValidTemplate` never checks the horizontal-fit inequality,
so a profile exceeding the 612-point page width passes validation; the
overflow is detected per label inside the pagination loop — generation with
`overflowT` succeeds (and writes the file) for one record, while a 3-record
input draws two labels and then aborts at the third label (the first one
whose `x + labelWidth` exceeds the page width) without writing any file. -/
theorem c3_amended :
    isOkE (isValidTemplate overflowT) = true ∧
    generate [o1] overflowT "out.pdf" =
      ([.addPage, .drawLabel o1, .writeFile], none) ∧
    generate [o1, o1, o1] overflowT "out.pdf" =
      ([.addPage, .drawLabel o1, .drawLabel o1],
       some "Label 3 would extend beyond right edge") ∧
    Effect.writeFile ∉ (generate [o1, o1, o1] overflowT "out.pdf").1 := by
  refine ⟨by decide, by decide, by decide, by decide⟩

end ConcreteEvalA

/-! ## C7 — registry lookup vs. the "custom" sentinel -/

/-- C7 counterexample: `getTemplateByName "custom"` fails even though
`"custom"` is the sentinel accepted by `isValidTemplateName`, so lookup does
not fail "exactly when the name is neither registered nor custom". -/
theorem c7_counterexample :
    isOkE (getTemplateByName "custom") = false ∧
    isValidTemplateName "custom" = true := by
  refine ⟨by decide, by decide⟩

/-- C7 amended: lookup fails exactly when the requested name is not among the
registered identifiers (in particular `lookup "custom"` also fails — the
sentinel is handled by callers before lookup); every registered name maps to
its own profile; and `isValidTemplateName` (membership in registered names ∪
custom) agrees with lookup's fail/succeed behaviour for every non-custom
name. -/
theorem c7_amended :
    (∀ name : String, isOkE (getTemplateByName name) = true ↔ name ∈ templateNames) ∧
    (∀ p : String × Template, p ∈ templatesList → getTemplateByName p.1 = .ok p.2) ∧
    (∀ name : String, name ≠ "custom" →
      (isValidTemplateName name = true ↔ isOkE (getTemplateByName name) = true)) := by
  have h1 : ∀ name : String, isOkE (getTemplateByName name) = true ↔ name ∈ templateNames := by
    intro name
    unfold getTemplateByName
    rcases hf : templatesList.find? (fun p => p.1 == name) with _ | p
    · rw [hf]
      simp only [isOkE, Bool.false_eq_true, false_iff]
      intro hmem
      obtain ⟨q, hq, hq1⟩ := List.mem_map.mp hmem
      have hex : ∃ x ∈ templatesList, (fun p => p.1 == name) x = true :=
        ⟨q, hq, by simp [hq1]⟩
      rw [← List.find?_isSome] at hex
      rw [hf] at hex
      simp at hex
    · rw [hf]
      simp only [isOkE, true_iff]
      have hp := List.find?_some hf
      have hmem := List.mem_of_find?_eq_some hf
      exact List.mem_map.mpr ⟨p, hmem, by simpa using hp⟩
  refine ⟨h1, ?_, ?_⟩
  · intro p hp
    fin_cases hp <;> rfl
  · intro name hne
    have hb : (name == "custom") = false := beq_eq_false_iff_ne.mpr hne
    simp only [isValidTemplateName, hb, Bool.or_false]
    rw [h1 name]
    exact List.elem_iff

/-- Witness for `c7_amended` at concrete names. -/
theorem c7_amended_witness :
    getTemplateByName "5162" = Except.ok t5162 ∧
    (isValidTemplateName "9999" = true ↔ isOkE (getTemplateByName "9999") = true) :=
  ⟨c7_amended.2.1 ("5162", t5162) (by simp [templatesList]),
   c7_amended.2.2 "9999" (by decide)⟩

/-! ## C10 — the exact acceptance condition of template validation -/

/-- C10: `validateInput.isValidTemplate` accepts a template exactly when all
six required fields are strictly positive, the label dimensions are at most
10 inches, `labelsPerRow ≤ 10` and `labelsPerColumn ≤ 20`; and whenever it
rejects, generation raises an error having performed no document effect (no
page created). -/
theorem c10_validation_bounds :
    (∀ t : Template, isOkE (isValidTemplate t) = true ↔
      (0 < t.labelWidth ∧ 0 < t.labelHeight ∧ 0 < t.labelsPerRow ∧
       0 < t.labelsPerColumn ∧ 0 < t.marginTop ∧ 0 < t.marginLeft ∧
       t.labelWidth ≤ 10 ∧ t.labelHeight ≤ 10 ∧
       t.labelsPerRow ≤ 10 ∧ t.labelsPerColumn ≤ 20)) ∧
    (∀ (orders : List Order) (t : Template) (path : String),
      isOkE (isValidTemplate t) = false →
      (generate orders t path).1 = [] ∧ (generate orders t path).2.isSome = true) := by
  constructor
  · intro t
    constructor
    · intro hok
      refine ⟨?_, ?_, ?_, ?_, ?_, ?_, ?_, ?_, ?_, ?_⟩
      · by_contra hneg
        have hf : isOkE (isValidTemplate t) = false := by
          simp [isValidTemplate, isOkE, not_lt.mp hneg]
        rw [hok] at hf; exact Bool.noConfusion hf
      · by_contra hneg
        have hf : isOkE (isValidTemplate t) = false := by
          simp [isValidTemplate, isOkE, not_lt.mp hneg]
        rw [hok] at hf; exact Bool.noConfusion hf
      · by_contra hneg
        have hf : isOkE (isValidTemplate t) = false := by
          simp [isValidTemplate, isOkE, Nat.le_zero.mp (not_lt.mp hneg)]
        rw [hok] at hf; exact Bool.noConfusion hf
      · by_contra hneg
        have hf : isOkE (isValidTemplate t) = false := by
          simp [isValidTemplate, isOkE, Nat.le_zero.mp (not_lt.mp hneg)]
        rw [hok] at hf; exact Bool.noConfusion hf
      · by_contra hneg
        have hf : isOkE (isValidTemplate t) = false := by
          simp [isValidTemplate, isOkE, not_lt.mp hneg]
        rw [hok] at hf; exact Bool.noConfusion hf
      · by_contra hneg
        have hf : isOkE (isValidTemplate t) = false := by
          simp [isValidTemplate, isOkE, not_lt.mp hneg]
        rw [hok] at hf; exact Bool.noConfusion hf
      · by_contra hneg
        have hw : t.labelWidth > 10 := not_le.mp hneg
        have hf : isOkE (isValidTemplate t) = false := by
          unfold isValidTemplate
          simp only [hw, true_or, if_true]
          simp only [apply_ite (fun e : Except String Unit => isOkE e)]
          simp [isOkE, ite_self]
        rw [hok] at hf; exact Bool.noConfusion hf
      · by_contra hneg
        have hw : t.labelHeight > 10 := not_le.mp hneg
        have hf : isOkE (isValidTemplate t) = false := by
          unfold isValidTemplate
          simp only [hw, or_true, if_true]
          simp only [apply_ite (fun e : Except String Unit => isOkE e)]
          simp [isOkE, ite_self]
        rw [hok] at hf; exact Bool.noConfusion hf
      · by_contra hneg
        have hw : t.labelsPerRow > 10 := not_le.mp hneg
        have hf : isOkE (isValidTemplate t) = false := by
          unfold isValidTemplate
          simp only [hw, true_or, if_true]
          simp only [apply_ite (fun e : Except String Unit => isOkE e)]
          simp [isOkE, ite_self]
        rw [hok] at hf; exact Bool.noConfusion hf
      · by_contra hneg
        have hw : t.labelsPerColumn > 20 := not_le.mp hneg
        have hf : isOkE (isValidTemplate t) = false := by
          unfold isValidTemplate
          simp only [hw, or_true, if_true]
          simp only [apply_ite (fun e : Except String Unit => isOkE e)]
          simp [isOkE, ite_self]
        rw [hok] at hf; exact Bool.noConfusion hf
    · rintro ⟨p1, p2, p3, p4, p5, p6, q1, q2, q3, q4⟩
      simp [isValidTemplate, isOkE, not_le.mpr p1, not_le.mpr p2, not_le.mpr p5,
        not_le.mpr p6, Nat.pos_iff_ne_zero.mp p3, Nat.pos_iff_ne_zero.mp p4,
        not_lt.mpr q1, not_lt.mpr q2, not_lt.mpr q3, not_lt.mpr q4]
  · intro orders t path hbad
    unfold generate
    by_cases hempty : orders.isEmpty
    · simp only [hempty, if_true]
      exact ⟨trivial, rfl⟩
    · rcases hv : isValidTemplate t with e | u
      · simp only [hempty, if_false, hv, Bool.false_eq_true]
        exact ⟨trivial, rfl⟩
      · rw [hv] at hbad
        simp [isOkE] at hbad

/-- Witness for `c10_validation_bounds`: a zero-margin template is rejected
and produces no page. -/
theorem c10_validation_bounds_witness :
    isOkE (isValidTemplate zeroMarginT) = false ∧
    (generate [o1] zeroMarginT "out.pdf").1 = [] := by
  have hiff := c10_validation_bounds.1 zeroMarginT
  have hbad : isOkE (isValidTemplate zeroMarginT) = false := by
    rcases h : isOkE (isValidTemplate zeroMarginT) with _ | _
    · rfl
    · have := hiff.mp h
      exact absurd this.2.2.2.2.1 (by norm_num [zeroMarginT])
  exact ⟨hbad, (c10_validation_bounds.2 [o1] zeroMarginT "out.pdf" hbad).1⟩

/-! ## C1 — pagination: order preservation, page boundaries, grid packing -/

theorem cellsFrom_length (t : Template) (os : List Order) :
    ∀ n, (cellsFrom t n os).length = os.length := by
  induction os with
  | nil => intro n; rfl
  | cons o os ih => intro n; simp [cellsFrom, ih]

theorem cellsFrom_get (t : Template) (os : List Order) :
    ∀ n i (h : i < os.length) (h2 : i < (cellsFrom t n os).length),
      (cellsFrom t n os).get ⟨i, h2⟩ = (os.get ⟨i, h⟩, cellFor t (n + i)) := by
  induction os with
  | nil => intro n i h h2; exact absurd h (Nat.not_lt_zero i)
  | cons o os ih =>
    intro n i h h2
    cases i with
    | zero => rfl
    | succ j =>
      have hj : j < os.length := Nat.lt_of_succ_lt_succ h
      have hj2 : j < (cellsFrom t (n + 1) os).length := by
        rw [cellsFrom_length]; exact hj
      calc (cellsFrom t n (o :: os)).get ⟨j + 1, h2⟩
          = (cellsFrom t (n + 1) os).get ⟨j, hj2⟩ := rfl
        _ = (os.get ⟨j, hj⟩, cellFor t (n + 1 + j)) := ih (n + 1) j hj hj2
        _ = ((o :: os).get ⟨j + 1, h⟩, cellFor t (n + (j + 1))) := by
            rw [show n + 1 + j = n + (j + 1) from by omega]
            rfl

theorem succ_div_mod_of_ne (cap n : ℕ) (h : (n + 1) % cap ≠ 0) :
    (n + 1) % cap = n % cap + 1 ∧ (n + 1) / cap = n / cap := by
  rcases Nat.eq_zero_or_pos cap with rfl | hcap
  · exact ⟨by simp, by simp⟩
  · have hne1 : cap ≠ 1 := by
      intro h1
      rw [h1, Nat.mod_one] at h
      exact h rfl
    have h1m : 1 % cap = 1 := Nat.mod_eq_of_lt (by omega)
    have hadd : (n + 1) % cap = (n % cap + 1) % cap := by
      rw [Nat.add_mod, h1m]
    have hlt : n % cap < cap := Nat.mod_lt n hcap
    have hne2 : n % cap + 1 ≠ cap := by
      intro heq
      rw [hadd, heq, Nat.mod_self] at h
      exact h rfl
    have hdvd : ¬ cap ∣ (n + 1) := fun hd => h (Nat.mod_eq_zero_of_dvd hd)
    refine ⟨?_, ?_⟩
    · rw [hadd, Nat.mod_eq_of_lt (by omega)]
    · rw [Nat.succ_div, if_neg hdvd, Nat.add_zero]

theorem succ_div_of_zero (cap n : ℕ) (h : (n + 1) % cap = 0) (hcap : 0 < cap) :
    (n + 1) / cap = n / cap + 1 := by
  have hdvd : cap ∣ (n + 1) := Nat.dvd_of_mod_eq_zero h
  rw [Nat.succ_div, if_pos hdvd]

/-- All four per-record bound checks pass for every global index, given the
data-model invariants of a valid profile (non-negative margins and gaps,
positive dimensions and counts, and the horizontal/vertical fit
inequalities in points). -/
theorem checkCell_ok (t : Template)
    (hR : 0 < t.labelsPerRow) (hC : 0 < t.labelsPerColumn)
    (hw : 0 < t.labelWidth) (hh : 0 < t.labelHeight)
    (hmT : 0 ≤ t.marginTop) (hmL : 0 ≤ t.marginLeft)
    (hhg : 0 ≤ t.horizontalGap) (hvg : 0 ≤ t.verticalGap)
    (hfitH : 72 * (t.marginLeft + t.labelsPerRow * t.labelWidth +
      ((t.labelsPerRow : ℚ) - 1) * t.horizontalGap) ≤ 612)
    (hfitV : 72 * (t.marginTop + t.labelsPerColumn * t.labelHeight +
      ((t.labelsPerColumn : ℚ) - 1) * t.verticalGap) ≤ 792)
    (i : ℕ) : checkCell t i (cellFor t i) = .ok () := by
  have hcap : 0 < capacity t := Nat.mul_pos hR hC
  set col : ℕ := (i % capacity t) % t.labelsPerRow with hcol
  set row : ℕ := (i % capacity t) / t.labelsPerRow with hrow
  have hcolR : col < t.labelsPerRow := Nat.mod_lt _ hR
  have hrowC : row < t.labelsPerColumn := by
    rw [hrow]
    rw [Nat.div_lt_iff_lt_mul hR]
    calc i % capacity t < capacity t := Nat.mod_lt _ hcap
      _ = t.labelsPerColumn * t.labelsPerRow := Nat.mul_comm _ _
  have hcolQ : (col : ℚ) ≤ (t.labelsPerRow : ℚ) - 1 := by
    have : (col : ℚ) + 1 ≤ (t.labelsPerRow : ℚ) := by
      exact_mod_cast Nat.succ_le_of_lt hcolR
    linarith
  have hrowQ : (row : ℚ) ≤ (t.labelsPerColumn : ℚ) - 1 := by
    have : (row : ℚ) + 1 ≤ (t.labelsPerColumn : ℚ) := by
      exact_mod_cast Nat.succ_le_of_lt hrowC
    linarith
  have hcolQ0 : (0 : ℚ) ≤ (col : ℚ) := Nat.cast_nonneg col
  have hrowQ0 : (0 : ℚ) ≤ (row : ℚ) := Nat.cast_nonneg row
  have hx : (cellFor t i).x = t.marginLeft * 72 + (col : ℚ) *
      (t.labelWidth * 72 + t.horizontalGap * 72) := rfl
  have hy : (cellFor t i).y = PAGE_HEIGHT - (t.marginTop * 72 + (row : ℚ) *
      (t.labelHeight * 72 + t.verticalGap * 72)) - t.labelHeight * 72 := rfl
  have h72 : (0 : ℚ) ≤ 72 := by norm_num
  have hwhg : (0 : ℚ) ≤ t.labelWidth * 72 + t.horizontalGap * 72 := by
    have h1 : (0 : ℚ) ≤ t.labelWidth * 72 := mul_nonneg (le_of_lt hw) h72
    have h2 : (0 : ℚ) ≤ t.horizontalGap * 72 := mul_nonneg hhg h72
    linarith
  have hhvg : (0 : ℚ) ≤ t.labelHeight * 72 + t.verticalGap * 72 := by
    have h1 : (0 : ℚ) ≤ t.labelHeight * 72 := mul_nonneg (le_of_lt hh) h72
    have h2 : (0 : ℚ) ≤ t.verticalGap * 72 := mul_nonneg hvg h72
    linarith
  have hmL72 : (0 : ℚ) ≤ t.marginLeft * 72 := mul_nonneg hmL h72
  have hmT72 : (0 : ℚ) ≤ t.marginTop * 72 := mul_nonneg hmT h72
  have hcolW : (0 : ℚ) ≤ (col : ℚ) * (t.labelWidth * 72 + t.horizontalGap * 72) :=
    mul_nonneg hcolQ0 hwhg
  have hrowH : (0 : ℚ) ≤ (row : ℚ) * (t.labelHeight * 72 + t.verticalGap * 72) :=
    mul_nonneg hrowQ0 hhvg
  have hmulW : (col : ℚ) * (t.labelWidth * 72 + t.horizontalGap * 72) ≤
      ((t.labelsPerRow : ℚ) - 1) * (t.labelWidth * 72 + t.horizontalGap * 72) :=
    mul_le_mul_of_nonneg_right hcolQ hwhg
  have hmulH : (row : ℚ) * (t.labelHeight * 72 + t.verticalGap * 72) ≤
      ((t.labelsPerColumn : ℚ) - 1) * (t.labelHeight * 72 + t.verticalGap * 72) :=
    mul_le_mul_of_nonneg_right hrowQ hhvg
  have hPH : PAGE_HEIGHT = 792 := rfl
  have hPW : PAGE_WIDTH = 612 := rfl
  have hX0 : ¬ (t.marginLeft * 72 + (col : ℚ) *
      (t.labelWidth * 72 + t.horizontalGap * 72) < 0) := by
    push_neg; linarith
  have hXW : ¬ (t.marginLeft * 72 + (col : ℚ) *
      (t.labelWidth * 72 + t.horizontalGap * 72) + t.labelWidth * 72 > PAGE_WIDTH) := by
    push_neg; rw [hPW]; nlinarith
  have hY0 : ¬ (PAGE_HEIGHT - (t.marginTop * 72 + (row : ℚ) *
      (t.labelHeight * 72 + t.verticalGap * 72)) - t.labelHeight * 72 < 0) := by
    push_neg; rw [hPH]; nlinarith
  have hYH : ¬ (PAGE_HEIGHT - (t.marginTop * 72 + (row : ℚ) *
      (t.labelHeight * 72 + t.verticalGap * 72)) - t.labelHeight * 72
      + t.labelHeight * 72 > PAGE_HEIGHT) := by
    push_neg; linarith
  unfold checkCell
  rw [hx, hy]
  simp only [hX0, hY0, hXW, hYH, if_false]

/-- The faithful loop agrees with the closed form: starting in any state
satisfying the loop invariant, and assuming every computed GridCell passes
its bound checks, `pagLoop` returns `cellsFrom`. -/
theorem pagLoop_eq_cellsFrom (t : Template) (hcap : 0 < capacity t)
    (hchecks : ∀ i, checkCell t i (cellFor t i) = .ok ()) :
    ∀ (os : List Order) (n locp pc : ℕ),
      (n % capacity t = 0 → pc = n / capacity t) →
      (n % capacity t ≠ 0 → locp = n % capacity t ∧ pc = n / capacity t + 1) →
      (pagLoop t os n locp pc).2 = .ok (cellsFrom t n os) := by
  intro os
  induction os with
  | nil => intro n locp pc _ _; rfl
  | cons o os ih =>
    intro n locp pc hinv0 hinv1
    by_cases hn : n % capacity t = 0
    · have hpc : pc = n / capacity t := hinv0 hn
      have hcell : cellOf t (pc + 1) 0 = cellFor t n := by
        rw [cellFor, hpc, hn]
      have hrest : (pagLoop t os (n + 1) (0 + 1) (pc + 1)).2 =
          .ok (cellsFrom t (n + 1) os) := by
        apply ih
        · intro hsz
          rw [succ_div_of_zero _ _ hsz hcap, hpc]
        · intro hsz
          obtain ⟨hm, hd⟩ := succ_div_mod_of_ne _ _ hsz
          constructor
          · rw [hm, hn]
          · rw [hd, hpc]
      unfold pagLoop
      simp only [if_pos hn]
      rw [hcell, hchecks n]
      dsimp only
      rw [hrest]
      rfl
    · obtain ⟨hlocp, hpc⟩ := hinv1 hn
      have hcell : cellOf t pc locp = cellFor t n := by
        rw [cellFor, hlocp, hpc]
      have hrest : (pagLoop t os (n + 1) (locp + 1) pc).2 =
          .ok (cellsFrom t (n + 1) os) := by
        apply ih
        · intro hsz
          rw [succ_div_of_zero _ _ hsz hcap, hpc]
        · intro hsz
          obtain ⟨hm, hd⟩ := succ_div_mod_of_ne _ _ hsz
          constructor
          · rw [hm, hlocp]
          · rw [hd, hpc]
      unfold pagLoop
      simp only [if_neg hn]
      rw [hcell, hchecks n]
      dsimp only
      rw [hrest]
      rfl

/-- C1: for a valid profile (positive dimensions and counts, non-negative
margins and gaps, grid fits the 612 x 792-point page), pagination succeeds
and is one-to-one and order-preserving: the i-th output pairs the i-th input
record with the GridCell at page `i / capacity`, row
`(i % capacity) / labelsPerRow`, column `(i % capacity) % labelsPerRow`;
the page index is non-decreasing, starts at 0 (a fresh page is begun before
the first record), and increments exactly at indices with
`i % capacity = 0`; with `labelsPerRow = 3, labelsPerColumn = 10` the first
30 records all land on page 0 (one full page) and record index 30 — the 31st
record — lands on page 1 at row 0, column 0. -/
theorem c1_pagination (t : Template) (orders : List Order)
    (hR : 0 < t.labelsPerRow) (hC : 0 < t.labelsPerColumn)
    (hw : 0 < t.labelWidth) (hh : 0 < t.labelHeight)
    (hmT : 0 ≤ t.marginTop) (hmL : 0 ≤ t.marginLeft)
    (hhg : 0 ≤ t.horizontalGap) (hvg : 0 ≤ t.verticalGap)
    (hfitH : 72 * (t.marginLeft + t.labelsPerRow * t.labelWidth +
      ((t.labelsPerRow : ℚ) - 1) * t.horizontalGap) ≤ 612)
    (hfitV : 72 * (t.marginTop + t.labelsPerColumn * t.labelHeight +
      ((t.labelsPerColumn : ℚ) - 1) * t.verticalGap) ≤ 792) :
    ∃ out, paginate orders t = .ok out ∧
      out.length = orders.length ∧
      (∀ i (hi : i < orders.length) (hi2 : i < out.length),
        out.get ⟨i, hi2⟩ = (orders.get ⟨i, hi⟩, cellFor t i)) ∧
      (∀ i, (cellFor t i).page = i / capacity t ∧
        (cellFor t i).row = (i % capacity t) / t.labelsPerRow ∧
        (cellFor t i).col = (i % capacity t) % t.labelsPerRow) ∧
      (∀ i j, i ≤ j → (cellFor t i).page ≤ (cellFor t j).page) ∧
      (cellFor t 0).page = 0 ∧
      (∀ i, 0 < i →
        ((cellFor t i).page = (cellFor t (i - 1)).page + 1 ↔ i % capacity t = 0)) ∧
      (t.labelsPerRow = 3 → t.labelsPerColumn = 10 →
        (∀ i, i < 30 → (cellFor t i).page = 0) ∧
        (cellFor t 30).page = 1 ∧ (cellFor t 30).row = 0 ∧ (cellFor t 30).col = 0) := by
  have hcap : 0 < capacity t := Nat.mul_pos hR hC
  have hchecks := checkCell_ok t hR hC hw hh hmT hmL hhg hvg hfitH hfitV
  have hmain := pagLoop_eq_cellsFrom t hcap hchecks orders 0 0 0
    (fun _ => by simp) (fun hne => absurd (Nat.zero_mod _) hne)
  have hpage : ∀ i, (cellFor t i).page = i / capacity t := by
    intro i
    simp [cellFor, cellOf]
  have hrow : ∀ i, (cellFor t i).row = (i % capacity t) / t.labelsPerRow := by
    intro i; rfl
  have hcol : ∀ i, (cellFor t i).col = (i % capacity t) % t.labelsPerRow := by
    intro i; rfl
  refine ⟨cellsFrom t 0 orders, hmain, cellsFrom_length t orders 0, ?_, ?_, ?_, ?_, ?_, ?_⟩
  · intro i hi hi2
    simpa using cellsFrom_get t orders 0 i hi hi2
  · intro i; exact ⟨hpage i, hrow i, hcol i⟩
  · intro i j hij
    rw [hpage i, hpage j]
    exact Nat.div_le_div_right hij
  · rw [hpage 0]; simp
  · intro i h0
    rw [hpage i, hpage (i - 1)]
    obtain ⟨m, rfl⟩ : ∃ m, i = m + 1 := ⟨i - 1, (Nat.succ_pred_eq_of_pos h0).symm⟩
    simp only [Nat.add_sub_cancel]
    constructor
    · intro hstep
      by_contra hne
      obtain ⟨_, hd⟩ := succ_div_mod_of_ne _ _ hne
      omega
    · intro hz
      exact succ_div_of_zero _ _ hz hcap
  · intro h3 h10
    have hcap30 : capacity t = 30 := by rw [capacity, h3, h10]
    constructor
    · intro i hi
      rw [hpage i, hcap30]
      omega
    · refine ⟨?_, ?_, ?_⟩
      · rw [hpage 30, hcap30]
      · rw [hrow 30, hcap30, h3]
      · rw [hcol 30, hcap30, h3]

/-! ## C9 — all-or-nothing output -/

theorem pagLoop_no_write (t : Template) :
    ∀ (os : List Order) (n l p : ℕ), Effect.writeFile ∉ (pagLoop t os n l p).1 := by
  intro os
  induction os with
  | nil => intro n l p; simp [pagLoop]
  | cons o os ih =>
    intro n l p
    unfold pagLoop
    by_cases hn : n % capacity t = 0
    · simp only [if_pos hn]
      rcases hc : checkCell t n (cellOf t (p + 1) 0) with e | u
      · simp
      · dsimp only
        intro hmem
        rcases List.mem_append.mp hmem with hmem1 | hmem2
        · simp at hmem1
        · rcases List.mem_cons.mp hmem2 with heq | hmem3
          · exact Effect.noConfusion heq
          · exact ih (n + 1) (0 + 1) (p + 1) hmem3
    · simp only [if_neg hn]
      rcases hc : checkCell t n (cellOf t p l) with e | u
      · simp
      · dsimp only
        intro hmem
        rcases List.mem_append.mp hmem with hmem1 | hmem2
        · simp at hmem1
        · rcases List.mem_cons.mp hmem2 with heq | hmem3
          · exact Effect.noConfusion heq
          · exact ih (n + 1) (l + 1) p hmem3

/-- C9: the generate operation is all-or-nothing with respect to the output
artifact.  If any error is raised (empty input, invalid template or path,
an invalid record, or a pagination bound violation mid-sequence), the effect
trace contains no `writeFile` — no output file is ever produced; and on
success the single `writeFile` is the very last effect, performed only after
every page and label of the in-memory document has been built. -/
theorem c9_all_or_nothing :
    (∀ (orders : List Order) (t : Template) (path : String) (e : String),
      (generate orders t path).2 = some e →
      Effect.writeFile ∉ (generate orders t path).1) ∧
    (∀ (orders : List Order) (t : Template) (path : String),
      (generate orders t path).2 = none →
      ∃ es, (generate orders t path).1 = es ++ [Effect.writeFile] ∧
        Effect.writeFile ∉ es) := by
  constructor
  · intro orders t path e
    unfold generate
    by_cases hempty : orders.isEmpty
    · rw [if_pos hempty]
      intro _
      simp
    · rw [if_neg hempty]
      rcases hv : isValidTemplate t with e1 | u1
      · intro _; simp
      · rcases hp : isValidOutputPath path with e2 | u2
        · intro _; simp
        · rcases ho : generate.validateOrders orders 0 with e3 | u3
          · intro _; simp
          · rcases hl : pagLoop t orders 0 0 0 with ⟨effs, rest⟩
            rcases rest with e4 | cs
            · intro _
              dsimp only
              have := pagLoop_no_write t orders 0 0 0
              rw [hl] at this
              exact this
            · intro he
              exact absurd he (by simp)
  · intro orders t path
    unfold generate
    by_cases hempty : orders.isEmpty
    · rw [if_pos hempty]
      intro hnone
      exact Option.noConfusion hnone
    · rw [if_neg hempty]
      rcases hv : isValidTemplate t with e1 | u1
      · intro hnone; exact Option.noConfusion hnone
      · rcases hp : isValidOutputPath path with e2 | u2
        · intro hnone; exact Option.noConfusion hnone
        · rcases ho : generate.validateOrders orders 0 with e3 | u3
          · intro hnone; exact Option.noConfusion hnone
          · rcases hl : pagLoop t orders 0 0 0 with ⟨effs, rest⟩
            rcases rest with e4 | cs
            · intro hnone; exact Option.noConfusion hnone
            · intro _
              refine ⟨effs, rfl, ?_⟩
              have := pagLoop_no_write t orders 0 0 0
              rw [hl] at this
              exact this

/-! ## C5 — student-name truncation -/

theorem drop_reverse_eq_take (l : List Char) (j : ℕ) :
    (l.reverse.drop j).reverse = l.take (l.length - j) := by
  rcases le_or_lt j l.length with hj | hj
  · have h1 : l.length - (l.length - j) = j := by omega
    have h2 := @List.reverse_take Char l (l.length - j)
    rw [h1] at h2
    rw [← h2, List.reverse_reverse]
  · have h1 : l.reverse.drop j = [] :=
      List.drop_eq_nil_of_le (by rw [List.length_reverse]; omega)
    have h2 : l.length - j = 0 := by omega
    rw [h1, h2, List.take_zero, List.reverse_nil]

/-- The truncation loop, unfolded in document order: drop the last character
while the candidate with the ellipsis appended is too wide. -/
theorem truncateLoop_eq (μ : List Char → ℚ) (maxW : ℚ) (t : List Char) :
    truncateLoop μ maxW t =
      if maxW < μ (t ++ ellipsis) ∧ t ≠ [] then truncateLoop μ maxW t.dropLast
      else t := by
  rcases ht : t.reverse with _ | ⟨c, rest⟩
  · have ht0 : t = [] := by
      have := congrArg List.reverse ht
      simpa using this
    subst ht0
    simp [truncateLoop, truncateAux]
  · have ht2 : t = rest.reverse ++ [c] := by
      have := congrArg List.reverse ht
      simpa using this
    have hrev : (c :: rest).reverse = t := by rw [ht2]; simp
    have hne : t ≠ [] := by rw [ht2]; simp
    have hdrop : t.dropLast.reverse = rest := by
      rw [ht2, List.dropLast_concat, List.reverse_reverse]
    by_cases hc : maxW < μ (t ++ ellipsis)
    · rw [if_pos ⟨hc, hne⟩, truncateLoop, ht, truncateAux, hrev, if_pos hc,
        truncateLoop, hdrop]
    · rw [if_neg (fun hand => hc hand.1), truncateLoop, ht, truncateAux, hrev,
        if_neg hc, hrev]

theorem truncateAux_fits (μ : List Char → ℚ) (maxW : ℚ) :
    ∀ r : List Char, truncateAux μ maxW r = [] ∨
      μ ((truncateAux μ maxW r).reverse ++ ellipsis) ≤ maxW := by
  intro r
  induction r with
  | nil => exact Or.inl rfl
  | cons c rest ih =>
    unfold truncateAux
    by_cases hc : maxW < μ ((c :: rest).reverse ++ ellipsis)
    · rw [if_pos hc]; exact ih
    · rw [if_neg hc]; exact Or.inr (not_lt.mp hc)

theorem truncateAux_suffix (μ : List Char → ℚ) (maxW : ℚ) :
    ∀ r : List Char, ∃ j, truncateAux μ maxW r = r.drop j := by
  intro r
  induction r with
  | nil => exact ⟨0, rfl⟩
  | cons c rest ih =>
    unfold truncateAux
    by_cases hc : maxW < μ ((c :: rest).reverse ++ ellipsis)
    · rw [if_pos hc]
      obtain ⟨j, hj⟩ := ih
      exact ⟨j + 1, by rw [hj]; rfl⟩
    · rw [if_neg hc]
      exact ⟨0, rfl⟩

theorem truncateAux_nil_iff (μ : List Char → ℚ) (maxW : ℚ) :
    ∀ r : List Char, truncateAux μ maxW r = [] ↔
      ∀ j, j < r.length → maxW < μ ((r.drop j).reverse ++ ellipsis) := by
  intro r
  induction r with
  | nil => simp [truncateAux]
  | cons c rest ih =>
    unfold truncateAux
    by_cases hc : maxW < μ ((c :: rest).reverse ++ ellipsis)
    · rw [if_pos hc, ih]
      constructor
      · intro hall j hj
        cases j with
        | zero => simpa using hc
        | succ j' => exact hall j' (by simpa using hj)
      · intro hall j hj
        have := hall (j + 1) (by simpa using hj)
        simpa using this
    · rw [if_neg hc]
      constructor
      · intro habs; exact absurd habs (by simp)
      · intro hall
        have := hall 0 (by simp)
        simp only [List.drop_zero] at this
        exact absurd this hc

/-- In document order: the result of the truncation loop is a prefix of the
input. -/
theorem truncateLoop_take (μ : List Char → ℚ) (maxW : ℚ) (t : List Char) :
    ∃ k, k ≤ t.length ∧ truncateLoop μ maxW t = t.take k := by
  obtain ⟨j, hj⟩ := truncateAux_suffix μ maxW t.reverse
  refine ⟨t.length - j, by omega, ?_⟩
  rw [truncateLoop, hj, drop_reverse_eq_take]

/-- In document order: the loop either empties the name or leaves a prefix
that fits together with the ellipsis. -/
theorem truncateLoop_fits (μ : List Char → ℚ) (maxW : ℚ) (t : List Char) :
    truncateLoop μ maxW t = [] ∨ μ (truncateLoop μ maxW t ++ ellipsis) ≤ maxW := by
  rcases truncateAux_fits μ maxW t.reverse with h | h
  · left; rw [truncateLoop, h, List.reverse_nil]
  · right; rw [truncateLoop]; exact h

/-- In document order: the loop reaches the empty string exactly when every
non-empty prefix of the name is too wide with the ellipsis appended. -/
theorem truncateLoop_nil_iff (μ : List Char → ℚ) (maxW : ℚ) (t : List Char) :
    truncateLoop μ maxW t = [] ↔
      ∀ k, 0 < k → k ≤ t.length → maxW < μ (t.take k ++ ellipsis) := by
  have hnil : truncateLoop μ maxW t = [] ↔ truncateAux μ maxW t.reverse = [] := by
    rw [truncateLoop]
    constructor
    · intro h
      have := congrArg List.reverse h
      simpa using this
    · intro h; rw [h, List.reverse_nil]
  rw [hnil, truncateAux_nil_iff]
  constructor
  · intro hall k hk0 hklen
    have hj : t.length - k < t.reverse.length := by
      rw [List.length_reverse]; omega
    have := hall (t.length - k) hj
    rw [drop_reverse_eq_take] at this
    have hkk : t.length - (t.length - k) = k := by omega
    rw [hkk] at this
    exact this
  · intro hall j hj
    rw [List.length_reverse] at hj
    rw [drop_reverse_eq_take]
    exact hall (t.length - j) (by omega) (by omega)

/-- C5 amended: truncation of the student name is a no-op (no ellipsis, no
warning) on fitting input; on too-wide input a warning is always signalled
and either a non-empty prefix of the name with `"..."` appended — measuring
within the available width — is drawn, or the field is omitted entirely; the
omission happens exactly when every non-empty prefix with `"..."` appended
exceeds the available width (so the field can be omitted even when the bare
ellipsis alone would fit, which the code never draws). -/
theorem c5_amended (μ : List Char → ℚ) (maxW : ℚ) (name : List Char) :
    (μ name ≤ maxW → drawStudentName μ maxW name = (some name, false)) ∧
    (¬ μ name ≤ maxW →
      (drawStudentName μ maxW name).2 = true ∧
      ((∃ k, 0 < k ∧ k ≤ name.length ∧
        (drawStudentName μ maxW name).1 = some (name.take k ++ ellipsis) ∧
        μ (name.take k ++ ellipsis) ≤ maxW) ∨
       (drawStudentName μ maxW name).1 = none) ∧
      ((drawStudentName μ maxW name).1 = none ↔
        ∀ k, 0 < k → k ≤ name.length → maxW < μ (name.take k ++ ellipsis))) := by
  constructor
  · intro hfit
    rw [drawStudentName, if_pos hfit]
  · intro hwide
    rw [drawStudentName, if_neg hwide]
    dsimp only
    by_cases hnil : truncateLoop μ maxW name = []
    · rw [hnil, if_neg (not_not_intro rfl)]
      refine ⟨rfl, Or.inr rfl, ?_⟩
      constructor
      · intro _
        exact (truncateLoop_nil_iff μ maxW name).mp hnil
      · intro _; rfl
    · rw [if_pos hnil]
      refine ⟨rfl, ?_, ?_⟩
      · left
        obtain ⟨k, hk, htake⟩ := truncateLoop_take μ maxW name
        have hk0 : 0 < k := by
          rcases Nat.eq_zero_or_pos k with rfl | h
          · rw [htake, List.take_zero] at hnil; exact absurd rfl hnil
          · exact h
        have hfits : μ (truncateLoop μ maxW name ++ ellipsis) ≤ maxW := by
          rcases truncateLoop_fits μ maxW name with h | h
          · exact absurd h hnil
          · exact h
        rw [htake] at hfits
        exact ⟨k, hk0, hk, by rw [htake], hfits⟩
      · constructor
        · intro habs; exact Option.noConfusion habs
        · intro hall
          exact absurd ((truncateLoop_nil_iff μ maxW name).mpr hall) hnil

/-! ## C6 — contents word wrap -/

theorem splitCh_not_mem (c : Char) :
    ∀ l : List Char, c ∉ l → splitCh c l = [l] := by
  intro l
  induction l with
  | nil => intro _; rfl
  | cons x xs ih =>
    intro h
    have hx : ¬ x = c := fun he => h (by rw [he]; exact List.mem_cons_self _ _)
    have hxs : c ∉ xs := fun hm => h (List.mem_cons_of_mem _ hm)
    unfold splitCh
    rw [if_neg hx, ih hxs]

theorem splitCh_cons_eq (c x : Char) (xs : List Char) :
    splitCh c (x :: xs) =
      if x = c then [] :: splitCh c xs
      else
        match splitCh c xs with
        | [] => [[x]]
        | y :: ys => (x :: y) :: ys := rfl

theorem splitCh_append_cons (c : Char) :
    ∀ l t : List Char, c ∉ l → splitCh c (l ++ c :: t) = l :: splitCh c t := by
  intro l
  induction l with
  | nil =>
    intro t _
    show splitCh c (c :: t) = [] :: splitCh c t
    rw [splitCh_cons_eq, if_pos rfl]
  | cons x xs ih =>
    intro t h
    have hx : ¬ x = c := fun he => h (by rw [he]; exact List.mem_cons_self _ _)
    have hxs : c ∉ xs := fun hm => h (List.mem_cons_of_mem _ hm)
    show splitCh c (x :: (xs ++ c :: t)) = (x :: xs) :: splitCh c t
    rw [splitCh_cons_eq, if_neg hx, ih t hxs]

theorem joinCh_ne_nil (c : Char) :
    ∀ g : List (List Char), g ≠ [] → (∀ x ∈ g, x ≠ []) → joinCh c g ≠ [] := by
  intro g
  match g with
  | [] => intro h _; exact absurd rfl h
  | [x] =>
    intro _ hx
    show x ≠ []
    exact hx x (List.mem_singleton_self x)
  | x :: y :: rest =>
    intro _ _
    show x ++ c :: joinCh c (y :: rest) ≠ []
    exact List.append_ne_nil_of_right_ne_nil x (List.cons_ne_nil _ _)

theorem joinCh_append_single (c : Char) :
    ∀ (g : List (List Char)) (w : List Char), g ≠ [] →
      joinCh c (g ++ [w]) = joinCh c g ++ c :: w := by
  intro g
  induction g with
  | nil => intro w h; exact absurd rfl h
  | cons x g' ih =>
    intro w _
    cases g' with
    | nil => rfl
    | cons y rest =>
      show joinCh c (x :: ((y :: rest) ++ [w])) = (x ++ c :: joinCh c (y :: rest)) ++ c :: w
      have h1 : joinCh c (x :: ((y :: rest) ++ [w])) =
          x ++ c :: joinCh c ((y :: rest) ++ [w]) := by
        cases rest <;> rfl
      rw [h1, ih w (List.cons_ne_nil _ _), List.append_assoc]
      rfl

theorem splitCh_joinCh (c : Char) :
    ∀ g : List (List Char), g ≠ [] → (∀ x ∈ g, c ∉ x) →
      splitCh c (joinCh c g) = g := by
  intro g
  induction g with
  | nil => intro h _; exact absurd rfl h
  | cons x g' ih =>
    intro _ hmem
    cases g' with
    | nil =>
      show splitCh c (joinCh c [x]) = [x]
      exact splitCh_not_mem c x (hmem x (List.mem_singleton_self x))
    | cons y rest =>
      show splitCh c (x ++ c :: joinCh c (y :: rest)) = x :: (y :: rest)
      rw [splitCh_append_cons c x _ (hmem x (List.mem_cons_self _ _))]
      rw [ih (List.cons_ne_nil _ _) (fun z hz => hmem z (List.mem_cons_of_mem _ hz))]

theorem wrapLoop_count (μ : List Char → ℚ) (maxW : ℚ) :
    ∀ (ws : List (List Char)) (cl : List Char) (ld : ℕ),
      (wrapLoop μ maxW ws cl ld).2.1 = ld + (wrapLoop μ maxW ws cl ld).1.length := by
  intro ws
  induction ws with
  | nil => intro cl ld; simp [wrapLoop]
  | cons w ws ih =>
    intro cl ld
    unfold wrapLoop
    by_cases hacc : μ (if cl ≠ [] then cl ++ ' ' :: w else w) ≤ maxW ∧ ld < maxLines
    · rw [if_pos hacc]
      exact ih _ ld
    · rw [if_neg hacc]
      by_cases hdraw : cl ≠ [] ∧ ld < maxLines
      · rw [if_pos hdraw]
        have := ih w (ld + 1)
        dsimp only
        rw [List.length_cons]
        omega
      · rw [if_neg hdraw]
        exact ih w ld

theorem wrapLoop_le (μ : List Char → ℚ) (maxW : ℚ) :
    ∀ (ws : List (List Char)) (cl : List Char) (ld : ℕ), ld ≤ maxLines →
      (wrapLoop μ maxW ws cl ld).2.1 ≤ maxLines := by
  intro ws
  induction ws with
  | nil => intro cl ld h; simpa [wrapLoop] using h
  | cons w ws ih =>
    intro cl ld h
    unfold wrapLoop
    by_cases hacc : μ (if cl ≠ [] then cl ++ ' ' :: w else w) ≤ maxW ∧ ld < maxLines
    · rw [if_pos hacc]; exact ih _ ld h
    · rw [if_neg hacc]
      by_cases hdraw : cl ≠ [] ∧ ld < maxLines
      · rw [if_pos hdraw]
        exact ih w (ld + 1) (by omega)
      · rw [if_neg hdraw]; exact ih w ld h

theorem wrapLoop_mono (μ : List Char → ℚ) (maxW : ℚ) :
    ∀ (ws : List (List Char)) (cl : List Char) (ld : ℕ),
      ld ≤ (wrapLoop μ maxW ws cl ld).2.1 := by
  intro ws cl ld
  rw [wrapLoop_count]
  exact Nat.le_add_right _ _

theorem wrapLoop_ok (μ : List Char → ℚ) (maxW : ℚ) (W : List (List Char)) :
    ∀ (ws : List (List Char)) (cl : List Char) (ld : ℕ),
      (cl = [] ∨ μ cl ≤ maxW ∨ cl ∈ W) → (∀ w ∈ ws, w ∈ W) →
      (∀ l ∈ (wrapLoop μ maxW ws cl ld).1, μ l ≤ maxW ∨ l ∈ W) ∧
      ((wrapLoop μ maxW ws cl ld).2.2 = [] ∨
        μ (wrapLoop μ maxW ws cl ld).2.2 ≤ maxW ∨
        (wrapLoop μ maxW ws cl ld).2.2 ∈ W) := by
  intro ws
  induction ws with
  | nil =>
    intro cl ld hcl _
    exact ⟨fun l hl => absurd hl (List.not_mem_nil l), hcl⟩
  | cons w ws ih =>
    intro cl ld hcl hws
    have hwW : w ∈ W := hws w (List.mem_cons_self _ _)
    have hwsW : ∀ x ∈ ws, x ∈ W := fun x hx => hws x (List.mem_cons_of_mem _ hx)
    unfold wrapLoop
    by_cases hacc : μ (if cl ≠ [] then cl ++ ' ' :: w else w) ≤ maxW ∧ ld < maxLines
    · rw [if_pos hacc]
      exact ih _ ld (Or.inr (Or.inl hacc.1)) hwsW
    · rw [if_neg hacc]
      by_cases hdraw : cl ≠ [] ∧ ld < maxLines
      · rw [if_pos hdraw]
        obtain ⟨ihlines, ihcl⟩ := ih w (ld + 1) (Or.inr (Or.inr hwW)) hwsW
        refine ⟨?_, ihcl⟩
        intro l hl
        rcases List.mem_cons.mp hl with rfl | hl2
        · rcases hcl with h | h | h
          · exact absurd h hdraw.1
          · exact Or.inl h
          · exact Or.inr h
        · exact ihlines l hl2
      · rw [if_neg hdraw]
        exact ih w ld (Or.inr (Or.inr hwW)) hwsW

/-- Word-level invariant: as long as the in-loop line counter stays below
the cap, the emitted lines are exactly space-joins of consecutive groups of
the input words, and the pending `currentLine` joins a trailing group; no
word is lost or altered. -/
theorem wrapLoop_partition (μ : List Char → ℚ) (maxW : ℚ) :
    ∀ (ws g : List (List Char)) (ld : ℕ),
      (∀ x ∈ g, x ≠ [] ∧ ' ' ∉ x) →
      (∀ w ∈ ws, w ≠ [] ∧ ' ' ∉ w) →
      (wrapLoop μ maxW ws (joinCh ' ' g) ld).2.1 < maxLines →
      ∃ (gs : List (List (List Char))) (gcur : List (List Char)),
        (wrapLoop μ maxW ws (joinCh ' ' g) ld).1 = gs.map (joinCh ' ') ∧
        (wrapLoop μ maxW ws (joinCh ' ' g) ld).2.2 = joinCh ' ' gcur ∧
        gs.flatten ++ gcur = g ++ ws ∧
        (∀ grp ∈ gs, grp ≠ [] ∧ ∀ x ∈ grp, x ≠ [] ∧ ' ' ∉ x) ∧
        (∀ x ∈ gcur, x ≠ [] ∧ ' ' ∉ x) := by
  intro ws
  induction ws with
  | nil =>
    intro g ld hg _ _
    refine ⟨[], g, rfl, rfl, ?_, ?_, hg⟩
    · simp
    · intro grp hgrp
      exact absurd hgrp (List.not_mem_nil grp)
  | cons w ws ih =>
    intro g ld hg hws hcap
    have hwOK : w ≠ [] ∧ ' ' ∉ w := hws w (List.mem_cons_self _ _)
    have hwsOK : ∀ x ∈ ws, x ≠ [] ∧ ' ' ∉ x := fun x hx => hws x (List.mem_cons_of_mem _ hx)
    have hg' : ∀ x ∈ (if g = [] then [w] else g ++ [w]), x ≠ [] ∧ ' ' ∉ x := by
      split
      · intro x hx
        rw [List.mem_singleton.mp hx]
        exact hwOK
      · intro x hx
        rcases List.mem_append.mp hx with h1 | h2
        · exact hg x h1
        · rw [List.mem_singleton.mp h2]
          exact hwOK
    have htest : (if joinCh ' ' g ≠ [] then joinCh ' ' g ++ ' ' :: w else w) =
        joinCh ' ' (if g = [] then [w] else g ++ [w]) := by
      rcases hgg : g with _ | ⟨x, g0⟩
      · simp [joinCh]
      · have hne : joinCh ' ' (x :: g0) ≠ [] :=
          joinCh_ne_nil ' ' (x :: g0) (List.cons_ne_nil _ _)
            (fun z hz => ((hgg ▸ hg) z hz).1)

        rw [if_pos hne, if_neg (List.cons_ne_nil x g0)]
        rw [joinCh_append_single ' ' (x :: g0) w (List.cons_ne_nil _ _)]
    unfold wrapLoop at hcap ⊢
    by_cases hacc : μ (if joinCh ' ' g ≠ [] then joinCh ' ' g ++ ' ' :: w else w) ≤ maxW ∧
        ld < maxLines
    · rw [if_pos hacc] at hcap ⊢
      rw [htest] at hcap ⊢
      obtain ⟨gs, gcur, h1, h2, h3, h4, h5⟩ := ih _ ld hg' hwsOK hcap
      refine ⟨gs, gcur, h1, h2, ?_, h4, h5⟩
      rw [h3]
      split
      · rename_i hgnil
        rw [hgnil]
        rfl
      · rw [List.append_assoc]
        rfl
    · rw [if_neg hacc] at hcap ⊢
      by_cases hdraw : joinCh ' ' g ≠ [] ∧ ld < maxLines
      · rw [if_pos hdraw] at hcap ⊢
        have hgne : g ≠ [] := by
          intro hgnil
          rw [hgnil] at hdraw
          exact hdraw.1 rfl
        have hjw : w = joinCh ' ' [w] := rfl
        have hcap' : (wrapLoop μ maxW ws (joinCh ' ' [w]) (ld + 1)).2.1 < maxLines := by
          dsimp only at hcap
          exact hcap
        obtain ⟨gs, gcur, h1, h2, h3, h4, h5⟩ := ih [w] (ld + 1)
          (by intro x hx; rw [List.mem_singleton.mp hx]; exact hwOK) hwsOK hcap'
        rw [show joinCh ' ' [w] = w from rfl] at h1 h2
        refine ⟨g :: gs, gcur, ?_, ?_, ?_, ?_, h5⟩
        · dsimp only
          rw [h1]
          rfl
        · dsimp only
          exact h2
        · dsimp only [List.flatten]
          rw [List.append_assoc, h3]
          rfl
        · intro grp hgrp
          rcases List.mem_cons.mp hgrp with rfl | hgrp2
          · exact ⟨hgne, hg⟩
          · exact h4 grp hgrp2
      · rw [if_neg hdraw] at hcap ⊢
        rcases Nat.lt_or_ge ld maxLines with hld | hld
        · have hclnil : joinCh ' ' g = [] := by
            by_contra hne
            exact hdraw ⟨hne, hld⟩
          have hgnil : g = [] := by
            rcases g with _ | ⟨x, g0⟩
            · rfl
            · exact absurd hclnil (joinCh_ne_nil ' ' (x :: g0) (List.cons_ne_nil _ _)
                (fun z hz => (hg z hz).1))
          have hcap2 : (wrapLoop μ maxW ws (joinCh ' ' [w]) ld).2.1 < maxLines := hcap
          obtain ⟨gs, gcur, h1, h2, h3, h4, h5⟩ := ih [w] ld
            (by intro x hx; rw [List.mem_singleton.mp hx]; exact hwOK) hwsOK hcap2
          rw [show joinCh ' ' [w] = w from rfl] at h1 h2
          refine ⟨gs, gcur, h1, h2, ?_, h4, h5⟩
          rw [h3, hgnil]
          rfl
        · have := wrapLoop_mono μ maxW ws w ld
          omega

/-- C6 amended: greedy wrapping of the body emits at most 3 lines; every
emitted line either fits the available width or is a single input word
(an over-wide word is emitted on a line of its own, exceeding the width); a
warning is signalled iff the loop's line counter reached the 3-line cap on a
non-empty word list (NOT iff content was dropped — the cap can be reached
with no real content lost); and when no warning is signalled and the words
are non-empty and space-free, the emitted lines contain exactly the input
words, in order, grouped by single spaces. -/
theorem c6_amended (μ : List Char → ℚ) (maxW : ℚ) (words : List (List Char)) :
    (wrapContents μ maxW words).1.length ≤ maxLines ∧
    (∀ l ∈ (wrapContents μ maxW words).1, μ l ≤ maxW ∨ l ∈ words) ∧
    ((wrapContents μ maxW words).2.2 = true ↔
      ((wrapContents μ maxW words).2.1 = maxLines ∧ words ≠ [])) ∧
    ((∀ w ∈ words, w ≠ [] ∧ ' ' ∉ w) → (wrapContents μ maxW words).2.2 = false →
      ((wrapContents μ maxW words).1.map (splitCh ' ')).flatten = words) := by
  have hcount := wrapLoop_count μ maxW words [] 0
  have hle := wrapLoop_le μ maxW words [] 0 (by norm_num [maxLines])
  refine ⟨?_, ?_, ?_, ?_⟩
  · rw [wrapContents]
    dsimp only
    split
    · rename_i hfin
      rw [List.length_append, List.length_singleton]
      omega
    · omega
  · intro l hl
    rw [wrapContents] at hl
    dsimp only at hl
    obtain ⟨hlines, hcl⟩ := wrapLoop_ok μ maxW words words [] 0 (Or.inl rfl)
      (fun w hw => hw)
    split at hl
    · rename_i hcond
      rcases List.mem_append.mp hl with h1 | h2
      · exact hlines l h1
      · rw [List.mem_singleton.mp h2]
        rcases hcl with h | h | h
        · exact absurd h hcond.1
        · exact Or.inl h
        · exact Or.inr h
    · exact hlines l hl
  · rw [wrapContents]
    dsimp only
    constructor
    · intro h
      rw [Bool.and_eq_true] at h
      obtain ⟨ha, hb⟩ := h
      have h3 : maxLines ≤ (wrapLoop μ maxW words [] 0).2.1 := of_decide_eq_true ha
      refine ⟨by omega, fun hnil => ?_⟩
      rw [hnil] at hb
      simp at hb
    · rintro ⟨h1, h2⟩
      rw [Bool.and_eq_true]
      refine ⟨decide_eq_true (by omega), ?_⟩
      rcases hwe : words with _ | ⟨w, ws⟩
      · exact absurd hwe h2
      · rfl
  · intro hwords hnowarn
    rw [wrapContents] at hnowarn ⊢
    dsimp only at hnowarn ⊢
    rcases hwe : words.isEmpty with _ | _
    case true =>
      have hwnil : words = [] := List.isEmpty_iff.mp hwe
      subst hwnil
      rfl
    case false =>
      rw [hwe, Bool.not_false, Bool.and_true] at hnowarn
      have hld3 : ¬ maxLines ≤ (wrapLoop μ maxW words [] 0).2.1 :=
        of_decide_eq_false hnowarn
      have hldlt : (wrapLoop μ maxW words [] 0).2.1 < maxLines := by omega
      have h0 : ([] : List Char) = joinCh ' ' [] := rfl
      obtain ⟨gs, gcur, h1, h2, h3, h4, h5⟩ := wrapLoop_partition μ maxW words [] 0
        (fun x hx => absurd hx (List.not_mem_nil x)) hwords hldlt
      rw [List.nil_append] at h3
      have h1e : (wrapLoop μ maxW words [] 0).1 = List.map (joinCh ' ') gs := h1
      have h2e : (wrapLoop μ maxW words [] 0).2.2 = joinCh ' ' gcur := h2
      have hmapgs : ((gs.map (joinCh ' ')).map (splitCh ' ')).flatten = gs.flatten := by
        rw [List.map_map]
        have hgsid : gs.map (splitCh ' ' ∘ joinCh ' ') = gs := by
          conv_rhs => rw [← List.map_id gs]
          refine List.map_congr_left ?_
          intro grp hgrp
          obtain ⟨hne, helts⟩ := h4 grp (by simpa using hgrp)
          show splitCh ' ' (joinCh ' ' grp) = grp
          exact splitCh_joinCh ' ' grp hne (fun x hx => (helts x hx).2)
        rw [hgsid]
      split
      · rename_i hfin
        have hgcur : gcur ≠ [] := by
          intro hnil
          rw [hnil] at h2e
          exact hfin.1 h2e
        rw [h1e, h2e, List.map_append, List.flatten_append, hmapgs]
        rw [List.map_singleton, List.flatten_cons, List.flatten_nil, List.append_nil]
        rw [splitCh_joinCh ' ' gcur hgcur (fun x hx => (h5 x hx).2)]
        exact h3
      · rename_i hfin
        have hcl : (wrapLoop μ maxW words [] 0).2.2 = [] := by
          by_contra hne
          exact hfin ⟨hne, hldlt⟩
        have hgcur : gcur = [] := by
          rcases hgc : gcur with _ | ⟨x, g0⟩
          · rfl
          · rw [hgc] at h2e h5
            exact absurd (h2e ▸ hcl) (joinCh_ne_nil ' ' (x :: g0) (List.cons_ne_nil _ _)
              (fun z hz => (h5 z hz).1))
        rw [h1e, hmapgs]
        rw [hgcur, List.append_nil] at h3
        exact h3


/-! ## C8 — CSV round trip -/

theorem length_dropWhile_le_ws (l : List Char) :
    (l.dropWhile isWS).length ≤ l.length := by
  have h := congrArg List.length (List.takeWhile_append_dropWhile isWS l)
  rw [List.length_append] at h
  omega

theorem dropWhile_head_false (x : Char) (xs : List Char)
    (h : List.dropWhile isWS (x :: xs) = x :: xs) : isWS x = false := by
  by_contra hws
  rw [Bool.not_eq_false] at hws
  rw [List.dropWhile_cons_of_pos hws] at h
  have h1 := length_dropWhile_le_ws xs
  have h2 := congrArg List.length h
  rw [List.length_cons] at h2
  omega

theorem dropWhile_append_left (a b : List Char) (ha : a.dropWhile isWS = a)
    (hne : a ≠ []) : (a ++ b).dropWhile isWS = a ++ b := by
  cases a with
  | nil => exact absurd rfl hne
  | cons x xs =>
    have hx : isWS x = false := dropWhile_head_false x xs ha
    rw [List.cons_append]
    exact List.dropWhile_cons_of_neg
      (fun hcc => by rw [hx] at hcc; exact Bool.noConfusion hcc)

theorem trimCh_eq_self_iff (l : List Char) :
    trimCh l = l ↔ l.dropWhile isWS = l ∧ l.reverse.dropWhile isWS = l.reverse := by
  constructor
  · intro h
    unfold trimCh at h
    have hlen1 := length_dropWhile_le_ws l
    have hlen2 := length_dropWhile_le_ws (l.dropWhile isWS).reverse
    rw [List.length_reverse] at hlen2
    have hlen3 : ((l.dropWhile isWS).reverse.dropWhile isWS).reverse.length = l.length := by
      rw [h]
    rw [List.length_reverse] at hlen3
    have htw := List.takeWhile_append_dropWhile isWS l
    have htwlen := congrArg List.length htw
    rw [List.length_append] at htwlen
    have htk : l.takeWhile isWS = [] := List.eq_nil_of_length_eq_zero (by omega)
    rw [htk, List.nil_append] at htw
    refine ⟨htw, ?_⟩
    rw [htw] at h
    have h2 := congrArg List.reverse h
    rw [List.reverse_reverse] at h2
    exact h2
  · rintro ⟨h1, h2⟩
    unfold trimCh
    rw [h1, h2, List.reverse_reverse]

theorem trimCh_append_sep (a b : List Char) (c : Char) (hc : isWS c = false)
    (ha : trimCh a = a) (hb : trimCh b = b) :
    trimCh (a ++ c :: b) = a ++ c :: b := by
  rw [trimCh_eq_self_iff] at ha hb ⊢
  obtain ⟨ha1, ha2⟩ := ha
  obtain ⟨hb1, hb2⟩ := hb
  constructor
  · cases a with
    | nil =>
      rw [List.nil_append]
      exact List.dropWhile_cons_of_neg
        (fun hcc => by rw [hc] at hcc; exact Bool.noConfusion hcc)
    | cons x xs =>
      have hx : isWS x = false := dropWhile_head_false x xs ha1
      rw [List.cons_append]
      exact List.dropWhile_cons_of_neg
        (fun hcc => by rw [hx] at hcc; exact Bool.noConfusion hcc)
  · rw [List.reverse_append, List.reverse_cons, List.append_assoc]
    cases hbr : b.reverse with
    | nil =>
      rw [List.nil_append, List.singleton_append]
      exact List.dropWhile_cons_of_neg
        (fun hcc => by rw [hc] at hcc; exact Bool.noConfusion hcc)
    | cons y ys =>
      rw [hbr] at hb2
      have hy : isWS y = false := dropWhile_head_false y ys hb2
      rw [List.cons_append]
      exact List.dropWhile_cons_of_neg
        (fun hcc => by rw [hy] at hcc; exact Bool.noConfusion hcc)

theorem trimCh_joinCh (c : Char) (hc : isWS c = false) :
    ∀ ls : List (List Char), (∀ l ∈ ls, trimCh l = l) →
      trimCh (joinCh c ls) = joinCh c ls := by
  intro ls
  induction ls with
  | nil => intro _; rfl
  | cons x ls' ih =>
    intro h
    cases ls' with
    | nil => exact h x (List.mem_singleton_self x)
    | cons y rest =>
      show trimCh (x ++ c :: joinCh c (y :: rest)) = x ++ c :: joinCh c (y :: rest)
      exact trimCh_append_sep x (joinCh c (y :: rest)) c hc
        (h x (List.mem_cons_self _ _))
        (ih (fun l hl => h l (List.mem_cons_of_mem _ hl)))

theorem mem_joinCh (c : Char) :
    ∀ (ls : List (List Char)) (x : Char), x ∈ joinCh c ls → x = c ∨ ∃ l ∈ ls, x ∈ l := by
  intro ls
  induction ls with
  | nil => intro x hx; exact absurd hx (List.not_mem_nil x)
  | cons a ls' ih =>
    intro x hx
    cases ls' with
    | nil => exact Or.inr ⟨a, List.mem_singleton_self a, hx⟩
    | cons b rest =>
      have hx' : x ∈ a ++ c :: joinCh c (b :: rest) := hx
      rcases List.mem_append.mp hx' with h1 | h2
      · exact Or.inr ⟨a, List.mem_cons_self _ _, h1⟩
      · rcases List.mem_cons.mp h2 with h3 | h4
        · exact Or.inl h3
        · rcases ih x h4 with h5 | ⟨l, hl, hxl⟩
          · exact Or.inl h5
          · exact Or.inr ⟨l, List.mem_cons_of_mem _ hl, hxl⟩

theorem joinCh_reverse_fix (c : Char) :
    ∀ ls : List (List Char), ls ≠ [] →
      (∀ l ∈ ls, l ≠ [] ∧ l.reverse.dropWhile isWS = l.reverse) →
      (joinCh c ls).reverse.dropWhile isWS = (joinCh c ls).reverse ∧ joinCh c ls ≠ [] := by
  intro ls
  induction ls with
  | nil => intro hn _; exact absurd rfl hn
  | cons x ls' ih =>
    intro _ h
    cases ls' with
    | nil =>
      obtain ⟨hx1, hx2⟩ := h x (List.mem_singleton_self x)
      exact ⟨hx2, hx1⟩
    | cons y rest =>
      obtain ⟨hr, hne⟩ := ih (List.cons_ne_nil _ _)
        (fun l hl => h l (List.mem_cons_of_mem _ hl))
      constructor
      · show (x ++ c :: joinCh c (y :: rest)).reverse.dropWhile isWS =
          (x ++ c :: joinCh c (y :: rest)).reverse
        rw [List.reverse_append, List.reverse_cons, List.append_assoc]
        exact dropWhile_append_left _ _ hr (by rwa [ne_eq, List.reverse_eq_nil_iff])
      · show x ++ c :: joinCh c (y :: rest) ≠ []
        exact List.append_ne_nil_of_right_ne_nil _ (List.cons_ne_nil _ _)

theorem contains_eq_false_of_not_mem (l : List Char) (a : Char) (h : a ∉ l) :
    l.contains a = false := by
  cases hcv : l.contains a with
  | false => rfl
  | true => exact absurd (List.elem_iff.mp hcv) h

theorem escapeValue_eq_self (l : List Char) (h1 : ',' ∉ l) (h2 : '"' ∉ l)
    (h3 : '\n' ∉ l) (h4 : '\r' ∉ l) : escapeValue l = l := by
  unfold escapeValue
  rw [contains_eq_false_of_not_mem l ',' h1, contains_eq_false_of_not_mem l '"' h2,
    contains_eq_false_of_not_mem l '\n' h3, contains_eq_false_of_not_mem l '\r' h4]
  rfl

theorem orderFields_escape (o : Order) (h : CleanOrder o) :
    (orderFields o).map escapeValue = orderFields o := by
  conv_rhs => rw [← List.map_id (orderFields o)]
  refine List.map_congr_left ?_
  intro f hf
  obtain ⟨⟨hm1, hm2, hm3, hm4⟩, _⟩ := h.1 f hf
  show escapeValue f = f
  exact escapeValue_eq_self f hm1 hm2 hm3 hm4

theorem csvLineOf_ne_nil (o : Order) : csvLineOf o ≠ [] := by
  have hdefeq : csvLineOf o = escapeValue o.orderId.data ++ ',' ::
      joinCh ',' [escapeValue o.studentName.data, escapeValue o.grade.data,
        escapeValue o.contents.data, escapeValue o.specialInstructions.data] := rfl
  rw [hdefeq]
  exact List.append_ne_nil_of_right_ne_nil _ (List.cons_ne_nil _ _)

theorem csvLineOf_split (o : Order) (h : CleanOrder o) :
    splitCh ',' (csvLineOf o) = orderFields o := by
  unfold csvLineOf
  rw [orderFields_escape o h]
  exact splitCh_joinCh ',' (orderFields o) (List.cons_ne_nil _ _)
    (fun x hx => ((h.1 x hx).1).1)

theorem csvLineOf_vals (o : Order) (h : CleanOrder o) :
    (splitCh ',' (csvLineOf o)).map trimCh = orderFields o := by
  rw [csvLineOf_split o h]
  conv_rhs => rw [← List.map_id (orderFields o)]
  refine List.map_congr_left ?_
  intro f hf
  exact (h.1 f hf).2

theorem csvLineOf_trimCh (o : Order) (h : CleanOrder o) :
    trimCh (csvLineOf o) = csvLineOf o := by
  unfold csvLineOf
  refine trimCh_joinCh ',' (by decide) _ ?_
  intro l hl
  rw [orderFields_escape o h] at hl
  exact (h.1 l hl).2

theorem csvLineOf_nl_not_mem (o : Order) (h : CleanOrder o) : '\n' ∉ csvLineOf o := by
  intro hmem
  unfold csvLineOf at hmem
  rcases mem_joinCh ',' _ '\n' hmem with hc | ⟨l, hl, hxl⟩
  · exact absurd hc (by decide)
  · rw [orderFields_escape o h] at hl
    exact ((h.1 l hl).1).2.2.1 hxl

theorem orderOfRow_fields (o : Order) :
    orderOfRow (csvHeaders.map String.data) (orderFields o) = o := rfl

theorem requiredFilter_nil (o : Order) (h : CleanOrder o) :
    requiredHeaders.filter
      (fun hd => rowGet (csvHeaders.map String.data) (orderFields o) hd.data == []) = [] := by
  obtain ⟨_, h1, h2, h3, h4⟩ := h
  rw [List.filter_eq_nil_iff]
  intro a ha
  simp only [requiredHeaders, List.mem_cons, List.not_mem_nil, or_false] at ha
  have g1 : rowGet (csvHeaders.map String.data) (orderFields o) "orderId".data =
      o.orderId.data := rfl
  have g2 : rowGet (csvHeaders.map String.data) (orderFields o) "studentName".data =
      o.studentName.data := rfl
  have g3 : rowGet (csvHeaders.map String.data) (orderFields o) "grade".data =
      o.grade.data := rfl
  have g4 : rowGet (csvHeaders.map String.data) (orderFields o) "contents".data =
      o.contents.data := rfl
  rcases ha with rfl | rfl | rfl | rfl
  · intro hc; exact h1 (g1 ▸ eq_of_beq hc)
  · intro hc; exact h2 (g2 ▸ eq_of_beq hc)
  · intro hc; exact h3 (g3 ▸ eq_of_beq hc)
  · intro hc; exact h4 (g4 ▸ eq_of_beq hc)

theorem parseRows_cons_eq (headers : List (List Char)) (l : List Char)
    (ls : List (List Char)) (i : ℕ) :
    parseRows headers (l :: ls) i =
      if trimCh l = [] then parseRows headers ls (i + 1)
      else if ((splitCh ',' (trimCh l)).map trimCh).length ≠ headers.length then
        .error ("Row " ++ toString (i + 1) ++ ": Column count mismatch. Expected " ++
          toString headers.length ++ ", got " ++
          toString ((splitCh ',' (trimCh l)).map trimCh).length)
      else if requiredHeaders.filter
          (fun h =>
            rowGet headers ((splitCh ',' (trimCh l)).map trimCh) h.data == []) ≠ [] then
        .error ("Row " ++ toString (i + 1) ++ ": Missing required fields: " ++
          String.intercalate ", "
            (requiredHeaders.filter
              (fun h =>
                rowGet headers ((splitCh ',' (trimCh l)).map trimCh) h.data == [])))
      else
        match parseRows headers ls (i + 1) with
        | .error e => .error e
        | .ok rest =>
          .ok (orderOfRow headers ((splitCh ',' (trimCh l)).map trimCh) :: rest) := rfl

theorem parseRows_map :
    ∀ os : List Order, (∀ o ∈ os, CleanOrder o) → ∀ i : ℕ,
      parseRows (csvHeaders.map String.data) (os.map csvLineOf) i = .ok os := by
  intro os
  induction os with
  | nil => intro _ i; rfl
  | cons o os' ih =>
    intro h i
    have hco : CleanOrder o := h o (List.mem_cons_self _ _)
    have hline := csvLineOf_trimCh o hco
    have hvals := csvLineOf_vals o hco
    rw [List.map_cons, parseRows_cons_eq, hline, hvals]
    rw [if_neg (csvLineOf_ne_nil o)]
    have hlen5 : (orderFields o).length = (List.map String.data csvHeaders).length := rfl
    rw [if_neg (not_not_intro hlen5)]
    rw [if_neg (not_not_intro (requiredFilter_nil o hco))]
    rw [ih (fun o' ho' => h o' (List.mem_cons_of_mem _ ho')) (i + 1)]
    dsimp only
    rw [orderOfRow_fields o]

/-- C8 amended: the CSV round trip is the identity on non-empty record lists
whose field values are free of commas, double quotes, newlines and carriage
returns and are fixed under trimming, with the four required fields
non-empty.  The quoting/escaping direction of the original claim does NOT
survive re-parsing: `parseCSV` splits rows naively on every comma with no
quote handling, so a quoted serialised field containing a comma breaks the
parse (see the counterexample). -/
theorem c8_amended (data : List Order) (hne : data ≠ [])
    (hclean : ∀ o ∈ data, CleanOrder o) :
    csvRoundTrip data = .ok data := by
  obtain ⟨o0, data', rfl⟩ : ∃ o0 data', data = o0 :: data' := by
    cases data with
    | nil => exact absurd rfl hne
    | cons a l => exact ⟨a, l, rfl⟩
  have hrowsclean : ∀ l ∈ (o0 :: data').map csvLineOf,
      trimCh l = l ∧ l ≠ [] ∧ '\n' ∉ l := by
    intro l hl
    rw [List.mem_map] at hl
    obtain ⟨o, ho, rfl⟩ := hl
    have hco := hclean o ho
    exact ⟨csvLineOf_trimCh o hco, csvLineOf_ne_nil o, csvLineOf_nl_not_mem o hco⟩
  have hconv : convertToCSV (o0 :: data') =
      .ok (joinCh '\n' (csvHeaderLine :: (o0 :: data').map csvLineOf)) := by
    unfold convertToCSV
    rw [List.isEmpty_cons, if_neg (by decide)]
  obtain ⟨hrevfix, hjne⟩ := joinCh_reverse_fix '\n' ((o0 :: data').map csvLineOf)
    (by rw [List.map_cons]; exact List.cons_ne_nil _ _)
    (fun l hl => ⟨(hrowsclean l hl).2.1,
      ((trimCh_eq_self_iff l).mp (hrowsclean l hl).1).2⟩)
  have hcontent_trim :
      trimCh (joinCh '\n' (csvHeaderLine :: (o0 :: data').map csvLineOf)) =
        joinCh '\n' (csvHeaderLine :: (o0 :: data').map csvLineOf) := by
    rw [trimCh_eq_self_iff]
    constructor
    · show List.dropWhile isWS (csvHeaderLine ++ '\n' ::
          joinCh '\n' ((o0 :: data').map csvLineOf)) =
        csvHeaderLine ++ '\n' :: joinCh '\n' ((o0 :: data').map csvLineOf)
      exact dropWhile_append_left _ _ (by decide) (by decide)
    · show (csvHeaderLine ++ '\n' ::
          joinCh '\n' ((o0 :: data').map csvLineOf)).reverse.dropWhile isWS =
        (csvHeaderLine ++ '\n' :: joinCh '\n' ((o0 :: data').map csvLineOf)).reverse
      rw [List.reverse_append, List.reverse_cons, List.append_assoc]
      exact dropWhile_append_left _ _ hrevfix (by rwa [ne_eq, List.reverse_eq_nil_iff])
  have hsplitN :
      splitCh '\n' (joinCh '\n' (csvHeaderLine :: (o0 :: data').map csvLineOf)) =
        csvHeaderLine :: (o0 :: data').map csvLineOf := by
    refine splitCh_joinCh '\n' _ (List.cons_ne_nil _ _) ?_
    intro x hx
    rcases List.mem_cons.mp hx with rfl | hx'
    · decide
    · exact (hrowsclean x hx').2.2
  have hheaders : (splitCh ',' csvHeaderLine).map trimCh = csvHeaders.map String.data := by
    decide
  have hmh : requiredHeaders.filter
      (fun h => !((csvHeaders.map String.data).contains h.data)) = [] := by decide
  have hpr := parseRows_map (o0 :: data') hclean 1
  rw [List.map_cons] at hpr
  have hcore : parseCSVCore
      (joinCh '\n' (csvHeaderLine :: (o0 :: data').map csvLineOf)) =
      .ok (o0 :: data') := by
    unfold parseCSVCore
    rw [hcontent_trim, hsplitN, List.map_cons]
    dsimp only
    rw [hheaders]
    rw [if_neg (not_not_intro hmh)]
    rw [hpr]
    dsimp only
    rw [List.isEmpty_cons, if_neg (by decide)]
  unfold csvRoundTrip
  rw [hconv]
  dsimp only
  unfold parseCSV
  rw [hcore]

/-- C8 counterexample: a field containing a comma is quoted by the
serialiser, but `parseCSV` splits the row on EVERY comma with no quote
handling, so the round trip fails with a column-count mismatch instead of
recovering the record — the escaping direction of the claim is false. -/
theorem c8_counterexample :
    csvRoundTrip [⟨"1", "Doe, Jane", "3", "x", ""⟩] =
      .error "CSV parsing error: Row 2: Column count mismatch. Expected 5, got 6" := by
  decide

/-- Witness for `c8_amended`: the round trip is the identity on the clean
one-record list `[o1]`. -/
theorem c8_amended_witness : csvRoundTrip [o1] = Except.ok [o1] :=
  c8_amended [o1] (by decide) (by decide)

/-! ## Concrete witnesses and counterexamples needing rational evaluation -/

section ConcreteEvalB

attribute [local semireducible] Rat.ofScientific Rat.mul Rat.inv Rat.add Rat.sub

/-- Witness for `c1_pagination`: the 5160 profile with the 3-record input
satisfies every hypothesis, so pagination succeeds with one output pair per
record. -/
theorem c1_pagination_witness :
    ∃ out, paginate threeOrders t5160 = Except.ok out ∧
      out.length = threeOrders.length := by
  obtain ⟨out, h1, h2, _⟩ := c1_pagination t5160 threeOrders (by decide) (by decide)
    (by norm_num [t5160]) (by norm_num [t5160]) (by norm_num [t5160])
    (by norm_num [t5160]) (by norm_num [t5160]) (by norm_num [t5160])
    (by norm_num [t5160]) (by norm_num [t5160])
  exact ⟨out, h1, h2⟩

/-- C5 counterexample: on a 7.2-point-wide slot the 2-character name `aa` is
too wide, the truncation loop reaches the empty prefix and the field is
omitted — even though the bare `...` (5.838 points) would fit, refuting
"omitted only when even the ellipsis cannot fit". -/
theorem c5_counterexample :
    drawStudentName (helveticaWidth 7) (36/5) ['a', 'a'] = (none, true) ∧
    helveticaWidth 7 ellipsis ≤ 36/5 := by
  exact ⟨by decide, by decide⟩

/-- Witness for `c5_amended`: a fitting name is drawn verbatim with no
warning. -/
theorem c5_amended_witness :
    drawStudentName (helveticaWidth 7) 100 ['a'] = (some ['a'], false) :=
  (c5_amended (helveticaWidth 7) 100 ['a']).1 (by decide)

/-- C6 counterexample: with width measure `helveticaWidth 7` and 15 points
available, the word list `aaaaa / bbb / ccc /` (trailing empty word) wraps to
three emitted lines of which the first measures 19.46 > 15 points (refuting
"every emitted line fits"), and the warning fires although every word of the
input is either emitted or empty — no content was dropped (refuting "warning
iff content was dropped"). -/
theorem c6_counterexample :
    wrapContents (helveticaWidth 7) 15
        [['a','a','a','a','a'], ['b','b','b'], ['c','c','c'], []] =
      ([['a','a','a','a','a'], ['b','b','b'], ['c','c','c']], 3, true) ∧
    ¬ helveticaWidth 7 ['a','a','a','a','a'] ≤ 15 ∧
    (∀ w ∈ [['a','a','a','a','a'], ['b','b','b'], ['c','c','c'], ([] : List Char)],
      w ∈ (wrapContents (helveticaWidth 7) 15
        [['a','a','a','a','a'], ['b','b','b'], ['c','c','c'], []]).1 ∨ w = []) := by
  exact ⟨by decide, by decide, by decide⟩

/-- Witness for `c6_amended`: a single fitting space-free word round-trips
through the wrap with no warning. -/
theorem c6_amended_witness :
    ((wrapContents (helveticaWidth 7) 15 [['b','b','b']]).1.map (splitCh ' ')).flatten =
      [['b','b','b']] :=
  (c6_amended (helveticaWidth 7) 15 [['b','b','b']]).2.2.2 (by decide) (by decide)

/-- Witness for `c9_all_or_nothing`: a successful run on the 5160 profile
performs its single `writeFile` as the very last effect. -/
theorem c9_all_or_nothing_witness :
    ∃ es, (generate threeOrders t5160 "out.pdf").1 = es ++ [Effect.writeFile] ∧
      Effect.writeFile ∉ es :=
  c9_all_or_nothing.2 threeOrders t5160 "out.pdf" (by decide)

end ConcreteEvalB
